import Mathlib

/-!
Verification of the ISL (inter-satellite link) topology / routing / instantiation
pipeline: a shallow embedding of the topology generator
(isl-topology-generator), the static shortest-path router (static-isl-routing)
and the link/address/route materialization (isl-network-creator), together with
proofs of the documented properties.

Machine integers (uint32_t) are modeled as Nat; the C++ sentinel
std::numeric_limits<uint32_t>::max() is the literal UINT32_MAX below.  All
arithmetic in the embedded code stays far below 2^32, so plain Nat arithmetic
agrees with the uint32_t arithmetic of the source.

std::map / std::set are modeled by association lists (iterated in ascending key
order exactly as the source builds them) or by update functions; std::vector by
List with positional set/getD access; std::priority_queue by a list together
with a minimum-extraction function (popMin), which has the same observable
behaviour: top() always returns the lexicographically least (distance, node)
pair and equal pairs are indistinguishable.
-/

set_option maxRecDepth 40000

/-- std::numeric_limits<uint32_t>::max(), the "no route" sentinel. -/
def UINT32_MAX : Nat := 4294967295

/-- IslTopology from isl-topology-generator.h: satellite count, number of
unique bidirectional links, and the satId -> neighbor list map
(std::map iterated in ascending key order, modeled as an assoc list). -/
structure IslTopology where
  numSatellites : Nat
  numLinks : Nat
  neighbors : List (Nat × List Nat)
deriving DecidableEq, Repr

/-- std::map::find on the neighbor map. -/
def lookupNbrs : List (Nat × List Nat) → Nat → Option (List Nat)
  | [], _ => none
  | p :: ps, u => if p.1 = u then some p.2 else lookupNbrs ps u

/-- The neighbor list of u, empty when u has no entry (the source always guards
its map accesses with find() != end(), which an absent entry makes skip the
neighbor loop, i.e. behave as an empty list). -/
def nbrList (t : IslTopology) (u : Nat) : List Nat :=
  (lookupNbrs t.neighbors u).getD []

/-- v is listed as a neighbor of u. -/
def memNbr (t : IslTopology) (u v : Nat) : Prop := v ∈ nbrList t u

instance (t : IslTopology) (u v : Nat) : Decidable (memNbr t u v) := by
  unfold memNbr; infer_instance

/-- The per-satellite neighbor list built by GenerateWalkerDeltaTopology for
plane/idx (NUM_PLANES = 3, SATS_PER_PLANE = 8): forward and backward intra-plane
ring neighbors, then same-index neighbors in the next and previous planes. -/
def walkerNbrs (plane idx : Nat) : List Nat :=
  [plane * 8 + (idx + 1) % 8,
   plane * 8 + (idx + 8 - 1) % 8,
   ((plane + 1) % 3) * 8 + idx,
   ((plane + 3 - 1) % 3) * 8 + idx]

/-- GenerateWalkerDeltaTopology from the topology generator source: sets
numSatellites first, returns the (otherwise default) topology unless
(numSatellites, neighborsPerSat) = (24, 4), else builds the neighbor map in
satId order and counts unique normalized links via a set. -/
def GenerateWalkerDeltaTopology (numSatellites neighborsPerSat : Nat) : IslTopology :=
  let base : IslTopology := { numSatellites := numSatellites, numLinks := 0, neighbors := [] }
  if numSatellites ≠ 24 then base
  else if neighborsPerSat ≠ 4 then base
  else
    let nbrs : List (Nat × List Nat) :=
      (List.range 3).flatMap fun plane =>
        (List.range 8).map fun idx => (plane * 8 + idx, walkerNbrs plane idx)
    -- std::set<std::pair<u32,u32>> of normalized links; its size is the number
    -- of distinct inserted pairs, computed here with a duplicate-free list.
    let uniqueLinks : List (Nat × Nat) :=
      nbrs.foldl (fun acc p =>
        p.2.foldl (fun acc2 nb =>
          let link := if p.1 < nb then (p.1, nb) else (nb, p.1)
          if link ∈ acc2 then acc2 else link :: acc2) acc) []
    { numSatellites := numSatellites, numLinks := uniqueLinks.length, neighbors := nbrs }

/-- Queue loop of BFS.  The fuel only bounds the number of pops: each pushed
node is marked visited at push time and is therefore pushed at most once, so at
most numSatellites pops ever happen and fuel numSatellites + 1 is never
exhausted; the C++ while loop needs no such bound. -/
def bfsLoop (t : IslTopology) : Nat → List Bool → List Nat → List Bool
  | _, visited, [] => visited
  | 0, visited, _ => visited
  | fuel + 1, visited, current :: rest =>
    let step := (nbrList t current).foldl
      (fun (st : List Bool × List Nat) nb =>
        if nb < t.numSatellites ∧ st.1.getD nb true = false
        then (st.1.set nb true, st.2 ++ [nb]) else st)
      (visited, rest)
    bfsLoop t fuel step.1 step.2

/-- BFS from the topology generator source: reachability vector from src. -/
def BFS (t : IslTopology) (src : Nat) : List Bool :=
  let visited := List.replicate t.numSatellites false
  if src ≥ t.numSatellites then visited
  else bfsLoop t (t.numSatellites + 1) (visited.set src true) [src]

/-- ComputeMeshConnectivity from the topology generator source.  The C++ double
ratio is modeled as ℚ; both numerator and denominator are small integers and
the only produced values are exact, so the IEEE double computation and this
rational one return 1.0 under exactly the same condition
(reachablePairs = totalPairs). -/
def ComputeMeshConnectivity (t : IslTopology) : ℚ :=
  let totalPairs := t.numSatellites * (t.numSatellites - 1)
  if totalPairs = 0 then 0
  else
    let reachablePairs := (List.range t.numSatellites).foldl
      (fun acc src => acc + ((BFS t src).count true - 1)) 0
    (reachablePairs : ℚ) / (totalPairs : ℚ)

/-- RoutingTables from static-isl-routing.h: the nested
std::map<u32, std::map<u32, u32>> m_nextHop, modeled as its lookup function
((src, dst) -> entry or none). -/
structure RoutingTables where
  nextHop : Nat → Nat → Option Nat

/-- A RoutingTables object before any SetNextHop (default-constructed maps). -/
def emptyRoutes : RoutingTables := ⟨fun _ _ => none⟩

/-- RoutingTables::SetNextHop: m_nextHop[src][dst] = nextHop (insert or
overwrite). -/
def SetNextHop (r : RoutingTables) (src dst nh : Nat) : RoutingTables :=
  ⟨fun a b => if a = src ∧ b = dst then some nh else r.nextHop a b⟩

/-- RoutingTables::GetNextHop: the stored entry, or UINT32_MAX when either map
lookup fails. -/
def GetNextHop (r : RoutingTables) (src dst : Nat) : Nat :=
  (r.nextHop src dst).getD UINT32_MAX

/-- Extraction of the top of the std::priority_queue (min-heap via
std::greater on (distance, node) pairs): returns the lexicographically least
pair and the remaining queue.  Equal pairs are identical values, so which
occurrence is removed is unobservable. -/
def popMin : List (Nat × Nat) → Option ((Nat × Nat) × List (Nat × Nat))
  | [] => none
  | a :: as =>
    match popMin as with
    | none => some (a, as)
    | some (m, rest) =>
      if a.1 < m.1 ∨ (a.1 = m.1 ∧ a.2 ≤ m.2) then some (a, as) else some (m, a :: rest)

/-- Mutable state of one Dijkstra run inside ComputeStaticRoutes: the dist and
prev vectors and the priority queue. -/
structure DState where
  dist : List Nat
  prev : List Nat
  pq : List (Nat × Nat)

/-- Relaxation step of ComputeStaticRoutes (the for loop over
topology.neighbors.find(u)): for every unvisited neighbor v with
dist[u] + 1 < dist[v], update dist[v], prev[v] and push (newDist, v).
visited here already has u marked, exactly as in the source. -/
def relaxAll (u : Nat) (visited : List Bool) : List Nat → DState → DState
  | [], s => s
  | v :: vs, s =>
    let s' :=
      if visited.getD v true then s
      else
        let newDist := s.dist.getD u 0 + 1
        if newDist < s.dist.getD v 0 then
          { dist := s.dist.set v newDist, prev := s.prev.set v u,
            pq := s.pq ++ [(newDist, v)] }
        else s
    relaxAll u visited vs s'

/-- Main while (!pq.empty()) loop of the Dijkstra run in ComputeStaticRoutes.
Termination: a pop of an already-visited node shrinks the queue, and a pop of
an unvisited node shrinks the number of unvisited entries. -/
def dijkstraLoop (t : IslTopology) (visited : List Bool) (s : DState) : List Nat × List Nat :=
  match h : popMin s.pq with
  | none => (s.dist, s.prev)
  | some ((_, u), pq') =>
    if hu : visited.getD u true then
      dijkstraLoop t visited { s with pq := pq' }
    else
      let visited' := visited.set u true
      dijkstraLoop t visited' (relaxAll u visited' (nbrList t u) { s with pq := pq' })
termination_by (visited.count false, s.pq.length)
decreasing_by
  · have hlen : ∀ (l : List (Nat × Nat)) (p : (Nat × Nat) × List (Nat × Nat)),
      popMin l = some p → p.2.length < l.length := by
      intro l
      induction l with
      | nil => intro p hp; simp [popMin] at hp
      | cons a as ih =>
        intro p hp
        simp only [popMin] at hp
        cases hm : popMin as with
        | none =>
          rw [hm] at hp
          cases hp
          simp
        | some q =>
          obtain ⟨m, rest⟩ := q
          rw [hm] at hp
          dsimp only at hp
          split at hp
          · cases hp
            simp
          · cases hp
            have := ih (m, rest) hm
            simp at this ⊢
            omega
    apply Prod.Lex.right
    exact hlen _ _ h
  · have hcnt : ∀ (l : List Bool) (i : Nat), l.getD i true = false →
      (l.set i true).count false < l.count false := by
      intro l
      induction l with
      | nil => intro i hi; simp [List.getD] at hi
      | cons b bs ih =>
        intro i hi
        cases i with
        | zero =>
          simp only [List.getD_cons_zero] at hi
          subst hi
          simp [List.count_cons]
        | succ j =>
          simp only [List.getD_cons_succ] at hi
          have := ih j hi
          simp only [List.set_cons_succ, List.count_cons]
          omega
    apply Prod.Lex.left
    simp only [Bool.not_eq_true] at hu
    exact hcnt _ _ hu

/-- One full Dijkstra run of ComputeStaticRoutes from source src: initial
dist = INF everywhere except dist[src] = 0, empty prev (UINT32_MAX), no node
visited, priority queue seeded with (0, src).  Returns the final (dist, prev)
pair. -/
def dijkstraRun (t : IslTopology) (src : Nat) : List Nat × List Nat :=
  let n := t.numSatellites
  dijkstraLoop t (List.replicate n false)
    { dist := (List.replicate n UINT32_MAX).set src 0,
      prev := List.replicate n UINT32_MAX,
      pq := [(0, src)] }

/-- Trace back from dst to the first hop:
while (prev[current] != src && prev[current] != UINT32_MAX) current = prev[current].
The prev chain strictly decreases dist, so the C++ loop runs at most
dist[dst] - 1 ≤ numSatellites times; the fuel (instantiated with numSatellites)
only mirrors that bound and is proven never to be exhausted on the states
ComputeStaticRoutes produces. -/
def traceBack (prev : List Nat) (src : Nat) : Nat → Nat → Nat
  | 0, current => current
  | fuel + 1, current =>
    let p := prev.getD current UINT32_MAX
    if p = src ∨ p = UINT32_MAX then current
    else traceBack prev src fuel p

/-- Next-hop extraction for one source (the for dst loop after the Dijkstra
run): skip dst = src and unreachable dst, otherwise store the traced-back
first hop. -/
def computeForSource (t : IslTopology) (src : Nat) (routes : RoutingTables) : RoutingTables :=
  let dp := dijkstraRun t src
  (List.range t.numSatellites).foldl
    (fun r dst =>
      if src = dst then r
      else if dp.1.getD dst UINT32_MAX = UINT32_MAX then r
      else SetNextHop r src dst (traceBack dp.2 src t.numSatellites dst))
    routes

/-- ComputeStaticRoutes from static-isl-routing.cc: one Dijkstra run and
next-hop extraction per source satellite. -/
def ComputeStaticRoutes (t : IslTopology) : RoutingTables :=
  (List.range t.numSatellites).foldl (fun r src => computeForSource t src r) emptyRoutes

/-- The while (current != dst) loop of GetHopCount.  The source's own
iteration cap (return UINT32_MAX once hops exceeds 100) bounds the recursion,
so the model needs no extra fuel. -/
def hopLoop (r : RoutingTables) (dst : Nat) (current hops : Nat) (visited : List Nat) : Nat :=
  if current = dst then hops
  else if current ∈ visited then UINT32_MAX
  else
    let next := GetNextHop r current dst
    if next = UINT32_MAX then UINT32_MAX
    else if hops + 1 > 100 then UINT32_MAX
    else hopLoop r dst next (hops + 1) (current :: visited)
termination_by 100 - hops
decreasing_by omega

/-- GetHopCount from static-isl-routing.cc. -/
def GetHopCount (r : RoutingTables) (src dst : Nat) : Nat :=
  if src = dst then 0 else hopLoop r dst src 0 []

/-! ### Checked variant of the Dijkstra run (for the memory-safety claim)

The relaxation step of ComputeStaticRoutes indexes dist, prev and visited with
u (the popped node) and v (a raw neighbor id) without any bound check — unlike
BFS and the generator's Dijkstra, which guard neighbor ids.  To state that this
unguarded indexing stays in bounds, the run is replayed with every vector
access checked (List.get?, set guarded by the length): any out-of-range index
yields none.  The safety theorem shows the checked run returns
some (unchecked run) whenever every neighbor id is below numSatellites. -/

/-- Relaxation with every dist/prev/visited access bounds-checked. -/
def relaxAllC (u : Nat) (visited : List Bool) : List Nat → DState → Option DState
  | [], s => some s
  | v :: vs, s =>
    match visited.get? v with
    | none => none
    | some true => relaxAllC u visited vs s
    | some false =>
      match s.dist.get? u, s.dist.get? v with
      | some du, some dv =>
        if du + 1 < dv then
          if v < s.prev.length then
            relaxAllC u visited vs
              { dist := s.dist.set v (du + 1), prev := s.prev.set v u,
                pq := s.pq ++ [(du + 1, v)] }
          else none
        else relaxAllC u visited vs s
      | _, _ => none

/-- Main loop with the visited access on the popped node bounds-checked. -/
def dijkstraLoopC (t : IslTopology) (visited : List Bool) (s : DState) :
    Option (List Nat × List Nat) :=
  match h : popMin s.pq with
  | none => some (s.dist, s.prev)
  | some ((_, u), pq') =>
    match hv : visited.get? u with
    | none => none
    | some true => dijkstraLoopC t visited { s with pq := pq' }
    | some false =>
      let visited' := visited.set u true
      match relaxAllC u visited' (nbrList t u) { s with pq := pq' } with
      | none => none
      | some s' => dijkstraLoopC t visited' s'
termination_by (visited.count false, s.pq.length)
decreasing_by
  · have hlen : ∀ (l : List (Nat × Nat)) (p : (Nat × Nat) × List (Nat × Nat)),
      popMin l = some p → p.2.length < l.length := by
      intro l
      induction l with
      | nil => intro p hp; simp [popMin] at hp
      | cons a as ih =>
        intro p hp
        simp only [popMin] at hp
        cases hm : popMin as with
        | none =>
          rw [hm] at hp
          cases hp
          simp
        | some q =>
          obtain ⟨m, rest⟩ := q
          rw [hm] at hp
          dsimp only at hp
          split at hp
          · cases hp
            simp
          · cases hp
            have := ih (m, rest) hm
            simp at this ⊢
            omega
    apply Prod.Lex.right
    exact hlen _ _ h
  · have hcnt : ∀ (l : List Bool) (i : Nat), l.get? i = some false →
      (l.set i true).count false < l.count false := by
      intro l
      induction l with
      | nil => intro i hi; simp at hi
      | cons b bs ih =>
        intro i hi
        cases i with
        | zero =>
          simp only [List.get?_cons_zero, Option.some.injEq] at hi
          subst hi
          simp [List.count_cons]
        | succ j =>
          simp only [List.get?_cons_succ] at hi
          have := ih j hi
          simp only [List.set_cons_succ, List.count_cons]
          omega
    apply Prod.Lex.left
    exact hcnt _ _ hv

/-- Checked version of dijkstraRun. -/
def dijkstraRunC (t : IslTopology) (src : Nat) : Option (List Nat × List Nat) :=
  let n := t.numSatellites
  dijkstraLoopC t (List.replicate n false)
    { dist := (List.replicate n UINT32_MAX).set src 0,
      prev := List.replicate n UINT32_MAX,
      pq := [(0, src)] }

/-! ### Address assignment (isl-network-creator.cc, AssignIslAddresses) -/

/-- Second octet of link i's /30 subnet: i / 64. -/
def subnetSecondOctet (i : Nat) : Nat := i / 64

/-- Third octet of link i's /30 subnet: (i % 64) * 4. -/
def subnetThirdOctet (i : Nat) : Nat := (i % 64) * 4

/-- The 32-bit value of the network address 10.(i/64).((i%64)*4).0 chosen by
AssignIslAddresses for link i (dotted quad read as a base-256 integer). -/
def subnetBase (i : Nat) : Nat :=
  10 * 2 ^ 24 + subnetSecondOctet i * 2 ^ 16 + subnetThirdOctet i * 2 ^ 8

/-- a lies in the 4-address /30 block (network, two hosts, broadcast) of
link i. -/
def inBlock (i a : Nat) : Prop := subnetBase i ≤ a ∧ a < subnetBase i + 4

/-- AssignIslAddresses: linkCount = numDevices / 2; link i's two devices get
the two host addresses of its /30 subnet (Ipv4AddressHelper assigns .1 to the
first device and .2 to the second). -/
def AssignIslAddresses (numDevices : Nat) : List Nat :=
  (List.range (numDevices / 2)).flatMap fun i => [subnetBase i + 1, subnetBase i + 2]

/-! ### Link fabric and route installation (isl-network-creator.cc) -/

/-- CreateIslMesh's link creation order: satellites in ascending id order,
neighbors in list order, one link per unordered pair via the sat < neighbor
guard and the createdLinks set. -/
def islLinks (t : IslTopology) : List (Nat × Nat) :=
  (List.range t.numSatellites).foldl
    (fun acc sat =>
      (nbrList t sat).foldl
        (fun acc2 nb =>
          if sat ≥ nb then acc2
          else if (sat, nb) ∈ acc2 then acc2
          else acc2 ++ [(sat, nb)])
        acc)
    []

/-- One entry of the Ipv4InterfaceContainer: owning node, local interface
index on that node, assigned address. -/
structure IfaceRec where
  node : Nat
  ifIdx : Nat
  addr : Nat
deriving DecidableEq, Repr

/-- Modelled from the spec: the ns-3 internet stack assigns each node's
loopback interface index 0 and each subsequently installed device the next
index in creation order ("interface index equals the position of that edge
among all edges touching localNode, in creation order — an externally visible
contract", spec §3); Ipv4AddressHelper.Assign hands out host addresses .1 and
.2 of the link's /30.  This builds the interface container produced by
CreateIslMesh followed by AssignIslAddresses: two records per link in creation
order, carrying a per-node next-interface counter starting at 1. -/
def buildIfacesAux : List (Nat × Nat) → Nat → (Nat → Nat) → List IfaceRec
  | [], _, _ => []
  | (a, b) :: rest, i, counts =>
    let ifA := counts a
    let counts1 : Nat → Nat := fun x => if x = a then ifA + 1 else counts x
    let ifB := counts1 b
    let counts2 : Nat → Nat := fun x => if x = b then ifB + 1 else counts1 x
    { node := a, ifIdx := ifA, addr := subnetBase i + 1 } ::
      { node := b, ifIdx := ifB, addr := subnetBase i + 2 } ::
      buildIfacesAux rest (i + 1) counts2

/-- Interface container over a link list, starting at link 0 with all
per-node interface counters at 1 (index 0 is the loopback). -/
def buildIfaces (links : List (Nat × Nat)) : List IfaceRec :=
  buildIfacesAux links 0 fun _ => 1

/-- Consecutive pairing of the interface container (the i, i+1 accesses of
the i += 2 loop in InstallStaticRoutes Step 1). -/
def pairUp : List IfaceRec → List (IfaceRec × IfaceRec)
  | x :: y :: rest => (x, y) :: pairUp rest
  | _ => []

/-- Step 1 of InstallStaticRoutes: linkToLocalInterface, mapping
(localNode, remoteNode) to (local interface index, local address) for both
directions of every link; later insertions overwrite earlier ones exactly as
std::map::operator[] does. -/
def linkToLocalInterface (ifaces : List IfaceRec) : Nat × Nat → Option (Nat × Nat) :=
  (pairUp ifaces).foldl
    (fun m p k =>
      if k = (p.1.node, p.2.node) then some (p.1.ifIdx, p.1.addr)
      else if k = (p.2.node, p.1.node) then some (p.2.ifIdx, p.2.addr)
      else m k)
    fun _ => none

/-- Step 2 of InstallStaticRoutes: satelliteAddress, the address of interface
1 (the first created ISL interface) of each node that has one. -/
def satelliteAddress (ifaces : List IfaceRec) (sat : Nat) : Option Nat :=
  (ifaces.find? fun e => e.node = sat).map fun e => e.addr

/-- All four lookups of Step 3 succeed for (src, dst): a next hop exists, dst
has a representative address, and both directions of the src–nextHop link are
bound.  A pair is installed exactly when this holds. -/
def routeInstallable (routes : RoutingTables) (ifaces : List IfaceRec) (src dst : Nat) : Bool :=
  (GetNextHop routes src dst != UINT32_MAX) &&
    (satelliteAddress ifaces dst).isSome &&
    (linkToLocalInterface ifaces (src, GetNextHop routes src dst)).isSome &&
    (linkToLocalInterface ifaces (GetNextHop routes src dst, src)).isSome

/-- The ordered pairs (src, dst), src ≠ dst, in the iteration order of
InstallStaticRoutes Step 3. -/
def orderedPairs (n : Nat) : List (Nat × Nat) :=
  (List.range n).flatMap fun s =>
    ((List.range n).filter fun d => !(s == d)).map fun d => (s, d)

/-- Step 3 of InstallStaticRoutes: for every ordered pair src ≠ dst look up
the next hop, dst's address, the local interface toward the next hop and the
reverse binding (gateway); any missing piece skips exactly that pair (the
NS_LOG_WARN branches, materialized here as the skipped list), otherwise one
host route is installed and totalRoutes incremented.  Returns
(totalRoutes, skipped pairs). -/
def InstallStaticRoutes (satCount : Nat) (routes : RoutingTables) (ifaces : List IfaceRec) :
    Nat × List (Nat × Nat) :=
  (List.range satCount).foldl
    (fun st src =>
      (List.range satCount).foldl
        (fun st2 dst =>
          if src = dst then st2
          else if routeInstallable routes ifaces src dst then (st2.1 + 1, st2.2)
          else (st2.1, st2.2 ++ [(src, dst)]))
        st)
    (0, [])

/-! ### Specification layer: paths, shortest distances, well-formedness -/

/-- A directed walk of exactly k hops from u to v along listed neighbors. -/
inductive PathLen (t : IslTopology) : Nat → Nat → Nat → Prop where
  | refl (u : Nat) : PathLen t u u 0
  | step {u w v : Nat} {k : Nat} : PathLen t u w k → memNbr t w v → PathLen t u v (k + 1)

/-- v is reachable from u. -/
def Reach (t : IslTopology) (u v : Nat) : Prop := ∃ k, PathLen t u v k

/-- k is the shortest hop distance from u to v. -/
def ShortestLen (t : IslTopology) (u v k : Nat) : Prop :=
  PathLen t u v k ∧ ∀ j, PathLen t u v j → k ≤ j

/-- Well-formed topology: every key and every listed neighbor id is a valid
node index.  Every topology the generator returns satisfies this. -/
def TopoWF (t : IslTopology) : Prop :=
  ∀ p ∈ t.neighbors, p.1 < t.numSatellites ∧ ∀ v ∈ p.2, v < t.numSatellites

instance (t : IslTopology) : Decidable (TopoWF t) := by
  unfold TopoWF; infer_instance

/-- Position after k applications of GetNextHop toward dst, starting at x. -/
def walkN (r : RoutingTables) (dst : Nat) : Nat → Nat → Nat
  | 0, x => x
  | k + 1, x => walkN r dst k (GetNextHop r x dst)

/-- One round of neighbor expansion (used only to certify reachability of
concrete topologies by evaluation). -/
def expandR (t : IslTopology) (S : List Nat) : List Nat :=
  S ++ ((S.flatMap (nbrList t)).filter fun v => !(S.contains v))

/-- Nodes reachable from src in at most k hops. -/
def reachSet (t : IslTopology) (src : Nat) : Nat → List Nat
  | 0 => [src]
  | k + 1 => expandR t (reachSet t src k)

/-- Loop invariant of the Dijkstra run in ComputeStaticRoutes, over the
visited vector and the DState (dist, prev, priority queue), for a fixed
topology t and source src; n abbreviates t.numSatellites and UINT32_MAX plays
the INF role exactly as in the source. -/
structure DInv (t : IslTopology) (src : Nat) (visited : List Bool) (s : DState) : Prop where
  hsrc : src < t.numSatellites
  hn : t.numSatellites < UINT32_MAX
  lenD : s.dist.length = t.numSatellites
  lenP : s.prev.length = t.numSatellites
  lenV : visited.length = t.numSatellites
  dist0 : s.dist.getD src 0 = 0
  distUB : ∀ v < t.numSatellites, s.dist.getD v 0 ≠ UINT32_MAX →
    PathLen t src v (s.dist.getD v 0)
  distBound : ∀ v < t.numSatellites, s.dist.getD v 0 ≠ UINT32_MAX →
    s.dist.getD v 0 ≤ visited.count true
  visitedDist : ∀ v < t.numSatellites, visited.getD v false = true →
    s.dist.getD v 0 ≠ UINT32_MAX ∧ ShortestLen t src v (s.dist.getD v 0)
  prevOK : ∀ v < t.numSatellites, v ≠ src → s.dist.getD v 0 ≠ UINT32_MAX →
    s.prev.getD v 0 < t.numSatellites ∧
    visited.getD (s.prev.getD v 0) false = true ∧
    memNbr t (s.prev.getD v 0) v ∧
    s.dist.getD (s.prev.getD v 0) 0 ≠ UINT32_MAX ∧
    s.dist.getD (s.prev.getD v 0) 0 + 1 = s.dist.getD v 0
  pqOK : ∀ p ∈ s.pq, p.2 < t.numSatellites ∧ s.dist.getD p.2 0 ≠ UINT32_MAX ∧
    s.dist.getD p.2 0 ≤ p.1
  pqCover : ∀ v < t.numSatellites, s.dist.getD v 0 ≠ UINT32_MAX →
    visited.getD v false = false → (s.dist.getD v 0, v) ∈ s.pq
  relaxedAll : ∀ u < t.numSatellites, visited.getD u false = true →
    ∀ v ∈ nbrList t u, s.dist.getD v 0 ≠ UINT32_MAX ∧
      s.dist.getD v 0 ≤ s.dist.getD u 0 + 1

/-- What holds of the final (dist, prev) pair of a Dijkstra run: dist is
exactly the shortest hop distance (UINT32_MAX on unreachable nodes), and prev
links every reached non-source node to a strictly closer listed neighbor. -/
structure DPost (t : IslTopology) (src : Nat) (dist prev : List Nat) : Prop where
  lenD : dist.length = t.numSatellites
  lenP : prev.length = t.numSatellites
  dist0 : dist.getD src 0 = 0
  distSh : ∀ v < t.numSatellites, dist.getD v 0 ≠ UINT32_MAX →
    ShortestLen t src v (dist.getD v 0)
  distReach : ∀ v < t.numSatellites, Reach t src v → dist.getD v 0 ≠ UINT32_MAX
  distBound : ∀ v < t.numSatellites, dist.getD v 0 ≠ UINT32_MAX →
    dist.getD v 0 ≤ t.numSatellites
  prevOK : ∀ v < t.numSatellites, v ≠ src → dist.getD v 0 ≠ UINT32_MAX →
    prev.getD v 0 < t.numSatellites ∧
    memNbr t (prev.getD v 0) v ∧
    dist.getD (prev.getD v 0) 0 ≠ UINT32_MAX ∧
    dist.getD (prev.getD v 0) 0 + 1 = dist.getD v 0

/-- Invariant holding during the relaxation fold of the visit step for the
freshly popped node u (already marked visited): all DInv fields except that
u's own neighbors are only partially relaxed, plus the facts known about u at
pop time. -/
structure DMid (t : IslTopology) (src u : Nat) (visited : List Bool) (s : DState) : Prop where
  hsrc : src < t.numSatellites
  hn : t.numSatellites < UINT32_MAX
  hu : u < t.numSatellites
  lenD : s.dist.length = t.numSatellites
  lenP : s.prev.length = t.numSatellites
  lenV : visited.length = t.numSatellites
  dist0 : s.dist.getD src 0 = 0
  distUB : ∀ v < t.numSatellites, s.dist.getD v 0 ≠ UINT32_MAX →
    PathLen t src v (s.dist.getD v 0)
  distBound : ∀ v < t.numSatellites, s.dist.getD v 0 ≠ UINT32_MAX →
    s.dist.getD v 0 ≤ visited.count true
  visitedDist : ∀ v < t.numSatellites, visited.getD v false = true →
    s.dist.getD v 0 ≠ UINT32_MAX ∧ ShortestLen t src v (s.dist.getD v 0)
  prevOK : ∀ v < t.numSatellites, v ≠ src → s.dist.getD v 0 ≠ UINT32_MAX →
    s.prev.getD v 0 < t.numSatellites ∧
    visited.getD (s.prev.getD v 0) false = true ∧
    memNbr t (s.prev.getD v 0) v ∧
    s.dist.getD (s.prev.getD v 0) 0 ≠ UINT32_MAX ∧
    s.dist.getD (s.prev.getD v 0) 0 + 1 = s.dist.getD v 0
  pqOK : ∀ p ∈ s.pq, p.2 < t.numSatellites ∧ s.dist.getD p.2 0 ≠ UINT32_MAX ∧
    s.dist.getD p.2 0 ≤ p.1
  pqCover : ∀ v < t.numSatellites, s.dist.getD v 0 ≠ UINT32_MAX →
    visited.getD v false = false → (s.dist.getD v 0, v) ∈ s.pq
  relaxedAllOld : ∀ x < t.numSatellites, visited.getD x false = true → x ≠ u →
    ∀ v ∈ nbrList t x, s.dist.getD v 0 ≠ UINT32_MAX ∧
      s.dist.getD v 0 ≤ s.dist.getD x 0 + 1
  uVis : visited.getD u false = true
  uDist : s.dist.getD u 0 ≠ UINT32_MAX
  uShort : ShortestLen t src u (s.dist.getD u 0)
  uBound : s.dist.getD u 0 + 1 ≤ visited.count true

/-! ### Concrete instances used by the claims -/

/-- The validated 24-satellite, 4-neighbor Walker-Delta topology. -/
def topo24 : IslTopology := GenerateWalkerDeltaTopology 24 4

/-- Neighbor list of node i in an n-node path graph: i-1 and i+1 when they
exist. -/
def pathAdj (n i : Nat) : List Nat :=
  (if 0 < i then [i - 1] else []) ++ if i + 1 < n then [i + 1] else []

/-- An n-node path topology 0 – 1 – ... – (n-1); for n = 102 the shortest
distance from 0 to 101 is 101, which exceeds GetHopCount's iteration cap. -/
def pathTopo (n : Nat) : IslTopology :=
  { numSatellites := n, numLinks := n - 1,
    neighbors := (List.range n).map fun i => (i, pathAdj n i) }

/-- A deliberately corrupted routing table with a 2-node next-hop cycle
toward destination 2: NextHop(0,2) = 1 and NextHop(1,2) = 0. -/
def corruptTable : RoutingTables := SetNextHop (SetNextHop emptyRoutes 0 2 1) 1 2 0

/-- A malformed 2-node topology whose node 0 lists the out-of-range neighbor
id 5: BFS guards against it, while the unchecked ComputeStaticRoutes
relaxation would index dist/prev/visited at 5. -/
def tBad : IslTopology := { numSatellites := 2, numLinks := 1, neighbors := [(0, [5]), (1, [0])] }

/-! ## Theorems -/

/-! ### Generic list helpers -/

theorem getD_congr {α : Type} (l : List α) (i : Nat) (a b : α) (h : i < l.length) :
    l.getD i a = l.getD i b := by
  induction l generalizing i with
  | nil => simp at h
  | cons x xs ih =>
    cases i with
    | zero => simp
    | succ j =>
      simp only [List.getD_cons_succ]
      exact ih j (by simpa using h)

theorem getD_set_self {α : Type} (l : List α) (i : Nat) (x a : α) (h : i < l.length) :
    (l.set i x).getD i a = x := by
  induction l generalizing i with
  | nil => simp at h
  | cons y ys ih =>
    cases i with
    | zero => simp
    | succ j => simpa using ih j (by simpa using h)

theorem getD_set_ne {α : Type} (l : List α) (i j : Nat) (x a : α) (h : i ≠ j) :
    (l.set i x).getD j a = l.getD j a := by
  induction l generalizing i j with
  | nil => simp
  | cons y ys ih =>
    cases i with
    | zero =>
      cases j with
      | zero => exact absurd rfl h
      | succ j' => simp
    | succ i' =>
      cases j with
      | zero => simp
      | succ j' => simpa using ih i' j' (by omega)

theorem count_true_set {l : List Bool} {i : Nat} (hi : i < l.length)
    (h : l.getD i false = false) : (l.set i true).count true = l.count true + 1 := by
  induction l generalizing i with
  | nil => simp at hi
  | cons b bs ih =>
    cases i with
    | zero =>
      simp only [List.getD_cons_zero] at h
      subst h
      simp [List.count_cons]
    | succ j =>
      simp only [List.getD_cons_succ] at h
      have := ih (by simpa using hi) h
      simp only [List.set_cons_succ, List.count_cons]
      omega

theorem count_true_le_length (l : List Bool) : l.count true ≤ l.length :=
  List.count_le_length true l

/-! ### popMin lemmas -/

theorem popMin_none {l : List (Nat × Nat)} (h : popMin l = none) : l = [] := by
  cases l with
  | nil => rfl
  | cons a as =>
    simp only [popMin] at h
    cases hm : popMin as with
    | none => rw [hm] at h; simp at h
    | some q =>
      obtain ⟨m, rest⟩ := q
      rw [hm] at h
      dsimp only at h
      split at h <;> simp at h

theorem popMin_perm : ∀ {l : List (Nat × Nat)} {m : Nat × Nat} {l' : List (Nat × Nat)},
    popMin l = some (m, l') → l.Perm (m :: l') := by
  intro l
  induction l with
  | nil => intro m l' h; simp [popMin] at h
  | cons a as ih =>
    intro m l' h
    simp only [popMin] at h
    cases hm : popMin as with
    | none =>
      rw [hm] at h
      cases h
      exact List.Perm.refl _
    | some q =>
      obtain ⟨mm, rest⟩ := q
      rw [hm] at h
      dsimp only at h
      split at h
      · cases h
        exact List.Perm.refl _
      · simp only [Option.some.injEq, Prod.mk.injEq] at h
        obtain ⟨h1, h2⟩ := h
        subst h1
        subst h2
        exact ((ih hm).cons a).trans (List.Perm.swap mm a rest)

theorem popMin_min : ∀ {l : List (Nat × Nat)} {m : Nat × Nat} {l' : List (Nat × Nat)},
    popMin l = some (m, l') → ∀ x ∈ l, m.1 ≤ x.1 := by
  intro l
  induction l with
  | nil => intro m l' h; simp [popMin] at h
  | cons a as ih =>
    intro m l' h x hx
    simp only [popMin] at h
    cases hm : popMin as with
    | none =>
      rw [hm] at h
      simp only [Option.some.injEq, Prod.mk.injEq] at h
      obtain ⟨h1, h2⟩ := h
      subst h1
      have has : as = [] := popMin_none hm
      subst has
      rcases List.mem_cons.mp hx with rfl | hx2
      · exact Nat.le_refl _
      · simp at hx2
    | some q =>
      obtain ⟨mm, rest⟩ := q
      rw [hm] at h
      dsimp only at h
      split at h
      case isTrue hc =>
        simp only [Option.some.injEq, Prod.mk.injEq] at h
        obtain ⟨h1, h2⟩ := h
        subst h1
        rcases List.mem_cons.mp hx with rfl | hx2
        · exact Nat.le_refl _
        · have := ih hm x hx2
          rcases hc with hc | hc <;> omega
      case isFalse hc =>
        simp only [Option.some.injEq, Prod.mk.injEq] at h
        obtain ⟨h1, h2⟩ := h
        subst h1
        push_neg at hc
        rcases List.mem_cons.mp hx with rfl | hx2
        · omega
        · exact ih hm x hx2

theorem popMin_mem {l : List (Nat × Nat)} {m : Nat × Nat} {l' : List (Nat × Nat)}
    (h : popMin l = some (m, l')) : m ∈ l :=
  (popMin_perm h).symm.subset (List.mem_cons_self m l')

theorem popMin_mem_rest {l : List (Nat × Nat)} {m : Nat × Nat} {l' : List (Nat × Nat)}
    (h : popMin l = some (m, l')) {x : Nat × Nat} (hx : x ∈ l') : x ∈ l :=
  (popMin_perm h).symm.subset (List.mem_cons_of_mem m hx)

theorem popMin_cover {l : List (Nat × Nat)} {m : Nat × Nat} {l' : List (Nat × Nat)}
    (h : popMin l = some (m, l')) {x : Nat × Nat} (hx : x ∈ l) (hne : x ≠ m) : x ∈ l' := by
  have := (popMin_perm h).subset hx
  rcases List.mem_cons.mp this with h1 | h1
  · exact absurd h1 hne
  · exact h1

/-! ### Neighbor lookup and well-formedness -/

theorem lookupNbrs_mem : ∀ {xs : List (Nat × List Nat)} {u : Nat} {l : List Nat},
    lookupNbrs xs u = some l → (u, l) ∈ xs := by
  intro xs
  induction xs with
  | nil => intro u l h; simp [lookupNbrs] at h
  | cons p ps ih =>
    intro u l h
    obtain ⟨p1, p2⟩ := p
    simp only [lookupNbrs] at h
    split at h
    case isTrue hp =>
      simp only [Option.some.injEq] at h
      subst hp
      subst h
      exact List.mem_cons_self _ _
    case isFalse hp =>
      exact List.mem_cons_of_mem _ (ih h)

theorem memNbr_lt {t : IslTopology} (hwf : TopoWF t) {u v : Nat} (h : memNbr t u v) :
    u < t.numSatellites ∧ v < t.numSatellites := by
  unfold memNbr nbrList at h
  cases hl : lookupNbrs t.neighbors u with
  | none => rw [hl] at h; simp at h
  | some l =>
    rw [hl] at h
    simp only [Option.getD_some] at h
    have hmem := lookupNbrs_mem hl
    have := hwf (u, l) hmem
    exact ⟨this.1, this.2 v h⟩

theorem memNbr_val_lt {t : IslTopology}
    (hids : ∀ p ∈ t.neighbors, ∀ v ∈ p.2, v < t.numSatellites)
    {u v : Nat} (h : memNbr t u v) : v < t.numSatellites := by
  unfold memNbr nbrList at h
  cases hl : lookupNbrs t.neighbors u with
  | none => rw [hl] at h; simp at h
  | some l =>
    rw [hl] at h
    simp only [Option.getD_some] at h
    exact hids (u, l) (lookupNbrs_mem hl) v h

/-! ### Path and shortest-distance theory -/

theorem pathLen_zero {t : IslTopology} {u v : Nat} (h : PathLen t u v 0) : u = v := by
  cases h
  rfl

theorem pathLen_self (t : IslTopology) (u : Nat) : PathLen t u u 0 := PathLen.refl u

theorem pathLen_succ_inv {t : IslTopology} {u v k : Nat} (h : PathLen t u v (k + 1)) :
    ∃ w, PathLen t u w k ∧ memNbr t w v := by
  cases h with
  | step hp he => exact ⟨_, hp, he⟩

theorem pathLen_trans {t : IslTopology} {u w v j k : Nat}
    (h1 : PathLen t u w j) (h2 : PathLen t w v k) : PathLen t u v (j + k) := by
  induction h2 with
  | refl => exact h1
  | step hp he ih => exact PathLen.step ih he

theorem pathLen_one {t : IslTopology} {u v : Nat} (h : memNbr t u v) : PathLen t u v 1 :=
  PathLen.step (PathLen.refl u) h

theorem pathLen_head {t : IslTopology} : ∀ {u v k : Nat}, PathLen t u v k → 1 ≤ k →
    ∃ w, memNbr t u w ∧ PathLen t w v (k - 1) := by
  intro u v k h
  induction h with
  | refl => intro h1; omega
  | @step w' v' k' hp he ih =>
    intro _
    by_cases hk0 : k' = 0
    · subst hk0
      have := pathLen_zero hp
      subst this
      exact ⟨v', he, PathLen.refl v'⟩
    · obtain ⟨x, hx1, hx2⟩ := ih (by omega)
      refine ⟨x, hx1, ?_⟩
      have heq : k' + 1 - 1 = k' - 1 + 1 := by omega
      rw [heq]
      exact PathLen.step hx2 he

theorem pathLen_lt {t : IslTopology} (hwf : TopoWF t) :
    ∀ {u v k : Nat}, PathLen t u v k → 1 ≤ k →
    u < t.numSatellites ∧ v < t.numSatellites := by
  intro u v k h
  induction h with
  | refl => intro h1; omega
  | @step w' v' k' hp he ih =>
    intro _
    have hv := memNbr_lt hwf he
    by_cases hk0 : k' = 0
    · subst hk0
      have := pathLen_zero hp
      subst this
      exact hv
    · exact ⟨(ih (by omega)).1, hv.2⟩

theorem reach_shortest {t : IslTopology} {u v : Nat} (h : Reach t u v) :
    ∃ k, ShortestLen t u v k := by
  classical
  obtain ⟨k, hk⟩ := h
  have hex : ∃ j, PathLen t u v j := ⟨k, hk⟩
  exact ⟨Nat.find hex, Nat.find_spec hex, fun j hj => Nat.find_min' hex hj⟩

theorem shortest_unique {t : IslTopology} {u v k k' : Nat}
    (h1 : ShortestLen t u v k) (h2 : ShortestLen t u v k') : k = k' :=
  Nat.le_antisymm (h1.2 k' h2.1) (h2.2 k h1.1)

theorem shortest_self (t : IslTopology) (u : Nat) : ShortestLen t u u 0 :=
  ⟨PathLen.refl u, fun j _ => Nat.zero_le j⟩

theorem shortest_zero {t : IslTopology} {u v : Nat} (h : ShortestLen t u v 0) : u = v := by
  exact pathLen_zero h.1

theorem shortest_pos {t : IslTopology} {u v k : Nat} (h : ShortestLen t u v k)
    (hne : u ≠ v) : 1 ≤ k := by
  by_contra hk
  push_neg at hk
  interval_cases k
  exact hne (shortest_zero h)

/-! ### The routing table never contains a self route -/

theorem computeForSource_self {t : IslTopology} {src x : Nat} {r : RoutingTables}
    (h : r.nextHop x x = none) : (computeForSource t src r).nextHop x x = none := by
  unfold computeForSource
  generalize List.range t.numSatellites = L
  induction L generalizing r with
  | nil => simpa using h
  | cons d ds ih =>
    simp only [List.foldl_cons]
    apply ih
    by_cases h1 : src = d
    · simp only [if_pos h1]
      exact h
    · simp only [if_neg h1]
      split
      · exact h
      · simp only [SetNextHop]
        rw [if_neg]
        · exact h
        · rintro ⟨rfl, rfl⟩
          exact h1 rfl

theorem noSelfRoute (t : IslTopology) (x : Nat) :
    (ComputeStaticRoutes t).nextHop x x = none := by
  unfold ComputeStaticRoutes
  have key : ∀ (L : List Nat) (r : RoutingTables), r.nextHop x x = none →
      (L.foldl (fun r src => computeForSource t src r) r).nextHop x x = none := by
    intro L
    induction L with
    | nil => intro r h; simpa using h
    | cons a as ih =>
      intro r h
      simp only [List.foldl_cons]
      exact ih _ (computeForSource_self h)
  exact key _ _ rfl

/-- C8: after ComputeStaticRoutes on any topology the routing table contains
no self-routes: the (x, x) entry is never set, so GetNextHop x x returns the
UINT32_MAX no-route sentinel for every node x. -/
theorem C8_no_self_routes : ∀ (t : IslTopology) (x : Nat),
    (ComputeStaticRoutes t).nextHop x x = none ∧
    GetNextHop (ComputeStaticRoutes t) x x = UINT32_MAX := by
  intro t x
  refine ⟨noSelfRoute t x, ?_⟩
  unfold GetNextHop
  rw [noSelfRoute]
  rfl

/-- C10: GetHopCount r x x = 0 for every routing table r (src = dst is
answered before any table lookup), even though the computed tables have no
(x, x) entry and GetNextHop x x is the no-route sentinel there. -/
theorem C10_self_hop_count_zero :
    (∀ (r : RoutingTables) (x : Nat), GetHopCount r x x = 0) ∧
    (∀ (t : IslTopology) (x : Nat),
      (ComputeStaticRoutes t).nextHop x x = none ∧
      GetNextHop (ComputeStaticRoutes t) x x = UINT32_MAX) := by
  constructor
  · intro r x
    simp [GetHopCount]
  · intro t x
    refine ⟨noSelfRoute t x, ?_⟩
    unfold GetNextHop
    rw [noSelfRoute]
    rfl

/-! ### Unsupported generator configurations -/

theorem gen_unsupported_eq (nS k : Nat) (h : ¬(nS = 24 ∧ k = 4)) :
    GenerateWalkerDeltaTopology nS k =
      { numSatellites := nS, numLinks := 0, neighbors := [] } := by
  unfold GenerateWalkerDeltaTopology
  by_cases h1 : nS = 24
  · subst h1
    by_cases h2 : k = 4
    · exact absurd ⟨rfl, h2⟩ h
    · simp [h2]
  · simp [h1]

/-- C5: every (satelliteCount, neighborsPerSat) other than (24, 4) yields,
without error, the explicitly degenerate topology: numLinks = 0 and an empty
neighbor map (numSatellites is still copied in, as the source sets it before
validating); in particular (10, 4) yields numLinks = 0. -/
theorem C5_unsupported_config :
    ((GenerateWalkerDeltaTopology 10 4).numLinks = 0 ∧
      (GenerateWalkerDeltaTopology 10 4).neighbors = []) ∧
    ∀ (nS k : Nat), ¬(nS = 24 ∧ k = 4) →
      GenerateWalkerDeltaTopology nS k =
        { numSatellites := nS, numLinks := 0, neighbors := [] } := by
  refine ⟨⟨by decide, by decide⟩, gen_unsupported_eq⟩

theorem C5_unsupported_config_witness :
    GenerateWalkerDeltaTopology 10 4 =
      { numSatellites := 10, numLinks := 0, neighbors := [] } :=
  C5_unsupported_config.2 10 4 (by decide)

/-! ### Symmetry of the generated topology -/

theorem topo24_wf : TopoWF (GenerateWalkerDeltaTopology 24 4) := by decide

theorem topo24_sats : (GenerateWalkerDeltaTopology 24 4).numSatellites = 24 := by decide

/-- C2: every topology returned by GenerateWalkerDeltaTopology is symmetric:
B is listed among A's neighbors iff A is listed among B's. -/
theorem C2_generated_topology_symmetric :
    ∀ (nS k A B : Nat),
      memNbr (GenerateWalkerDeltaTopology nS k) A B ↔
      memNbr (GenerateWalkerDeltaTopology nS k) B A := by
  intro nS k A B
  by_cases h24 : nS = 24 ∧ k = 4
  · obtain ⟨rfl, rfl⟩ := h24
    have hdec : ∀ a ∈ List.range 24, ∀ b ∈ List.range 24,
        decide (memNbr (GenerateWalkerDeltaTopology 24 4) a b) =
        decide (memNbr (GenerateWalkerDeltaTopology 24 4) b a) := by decide
    constructor
    · intro h
      have hb := memNbr_lt topo24_wf h
      rw [topo24_sats] at hb
      have := hdec A (List.mem_range.mpr hb.1) B (List.mem_range.mpr hb.2)
      rw [decide_eq_decide] at this
      exact this.mp h
    · intro h
      have hb := memNbr_lt topo24_wf h
      rw [topo24_sats] at hb
      have := hdec B (List.mem_range.mpr hb.1) A (List.mem_range.mpr hb.2)
      rw [decide_eq_decide] at this
      exact this.mp h
  · rw [gen_unsupported_eq nS k h24]
    simp [memNbr, nbrList, lookupNbrs]

/-! ### Address block allocation -/

theorem subnetBase_linear (i : Nat) : subnetBase i = 10 * 2 ^ 24 + 1024 * i := by
  unfold subnetBase subnetSecondOctet subnetThirdOctet
  omega

theorem assign_pairwise_lt : ∀ (L : List Nat), L.Pairwise (· < ·) →
    (L.flatMap fun i => [subnetBase i + 1, subnetBase i + 2]).Pairwise (· < ·) := by
  intro L
  induction L with
  | nil => intro _; simp
  | cons a as ih =>
    intro hL
    rw [List.pairwise_cons] at hL
    simp only [List.flatMap_cons]
    rw [List.pairwise_append]
    refine ⟨?_, ih hL.2, ?_⟩
    · simp only [List.pairwise_cons]
      refine ⟨?_, by simp⟩
      intro y hy
      simp at hy
      omega
    · intro x hx y hy
      simp only [List.mem_cons, List.not_mem_nil, or_false] at hx
      rw [List.mem_flatMap] at hy
      obtain ⟨j, hj, hyj⟩ := hy
      simp only [List.mem_cons, List.not_mem_nil, or_false] at hyj
      have haj : a < j := hL.1 j hj
      rw [subnetBase_linear a, subnetBase_linear j] at *
      rcases hx with rfl | rfl <;> rcases hyj with rfl | rfl <;> omega

/-- C6: AssignIslAddresses gives link i the /30 block 10.(i/64).((i%64)*4).0;
blocks of distinct links are disjoint (so no two assigned addresses ever
collide — the produced address list has no duplicates and each host address
lies in its own link's block), the third octet never leaves [0, 252], and when
it would overflow past 252 the allocation rolls into the second octet
(link 63 ends at 10.0.252.0, link 64 starts 10.1.0.0). -/
theorem C6_address_blocks_disjoint :
    (∀ (i j a : Nat), i ≠ j → inBlock i a → ¬inBlock j a) ∧
    (∀ numDevices : Nat, (AssignIslAddresses numDevices).Nodup) ∧
    (∀ i : Nat, inBlock i (subnetBase i + 1) ∧ inBlock i (subnetBase i + 2)) ∧
    (∀ i : Nat, subnetThirdOctet i ≤ 252) ∧
    (subnetSecondOctet 63 = 0 ∧ subnetThirdOctet 63 = 252 ∧
      subnetSecondOctet 64 = 1 ∧ subnetThirdOctet 64 = 0) := by
  refine ⟨?_, ?_, ?_, ?_, by decide⟩
  · intro i j a hne h1 h2
    unfold inBlock at h1 h2
    rw [subnetBase_linear i] at h1
    rw [subnetBase_linear j] at h2
    omega
  · intro numDevices
    unfold AssignIslAddresses
    have hp := assign_pairwise_lt (List.range (numDevices / 2)) (List.pairwise_lt_range _)
    exact hp.imp Nat.ne_of_lt
  · intro i
    unfold inBlock
    omega
  · intro i
    unfold subnetThirdOctet
    have := Nat.mod_lt i (show 0 < 64 by decide)
    omega

theorem C6_address_blocks_disjoint_witness :
    ¬inBlock 1 (subnetBase 0 + 1) ∧ (AssignIslAddresses 96).Nodup :=
  ⟨C6_address_blocks_disjoint.1 0 1 (subnetBase 0 + 1) (by decide)
      (C6_address_blocks_disjoint.2.2.1 0).1,
    C6_address_blocks_disjoint.2.1 96⟩

/-! ### GetHopCount: loop protection and honest finite results -/

theorem hopLoop_eq (r : RoutingTables) (dst current hops : Nat) (visited : List Nat) :
    hopLoop r dst current hops visited =
      if current = dst then hops
      else if current ∈ visited then UINT32_MAX
      else
        if GetNextHop r current dst = UINT32_MAX then UINT32_MAX
        else if hops + 1 > 100 then UINT32_MAX
        else hopLoop r dst (GetNextHop r current dst) (hops + 1) (current :: visited) := by
  rw [hopLoop]

theorem walkN_succ (r : RoutingTables) (dst k x : Nat) :
    walkN r dst (k + 1) x = walkN r dst k (GetNextHop r x dst) := rfl

theorem hopLoop_finite_walk (r : RoutingTables) (dst : Nat) :
    ∀ (current hops : Nat) (visited : List Nat),
      hopLoop r dst current hops visited ≠ UINT32_MAX →
      ∃ m, hopLoop r dst current hops visited = hops + m ∧
        walkN r dst m current = dst ∧
        (∀ i < m, GetNextHop r (walkN r dst i current) dst ≠ UINT32_MAX) ∧
        (∀ i < m, walkN r dst i current ∉ visited) ∧
        (∀ i j, i < j → j ≤ m → walkN r dst i current ≠ walkN r dst j current) := by
  intro current hops visited
  refine hopLoop.induct r dst
    (fun current hops visited =>
      hopLoop r dst current hops visited ≠ UINT32_MAX →
      ∃ m, hopLoop r dst current hops visited = hops + m ∧
        walkN r dst m current = dst ∧
        (∀ i < m, GetNextHop r (walkN r dst i current) dst ≠ UINT32_MAX) ∧
        (∀ i < m, walkN r dst i current ∉ visited) ∧
        (∀ i j, i < j → j ≤ m → walkN r dst i current ≠ walkN r dst j current))
    ?_ ?_ ?_ ?_ ?_ current hops visited
  · intro hops visited _
    refine ⟨0, ?_, rfl, by omega, by omega, by omega⟩
    rw [hopLoop_eq, if_pos rfl]
    omega
  · intro current hops visited hne hmem habs
    rw [hopLoop_eq, if_neg hne, if_pos hmem] at habs
    exact absurd rfl habs
  · intro current hops visited hne hmem next hinf habs
    have hnext : next = GetNextHop r current dst := rfl
    rw [hnext] at hinf
    rw [hopLoop_eq, if_neg hne, if_neg hmem, if_pos hinf] at habs
    exact absurd rfl habs
  · intro current hops visited hne hmem next hinf hcap habs
    have hnext : next = GetNextHop r current dst := rfl
    rw [hnext] at hinf
    rw [hopLoop_eq, if_neg hne, if_neg hmem, if_neg hinf, if_pos hcap] at habs
    exact absurd rfl habs
  · intro current hops visited hne hmem next hinf hcap ih habs
    have hnext : next = GetNextHop r current dst := rfl
    rw [hnext] at hinf ih
    rw [hopLoop_eq, if_neg hne, if_neg hmem, if_neg hinf, if_neg hcap] at habs ⊢
    obtain ⟨m, h1, h2, h3, h4, h5⟩ := ih habs
    refine ⟨m + 1, by omega, ?_, ?_, ?_, ?_⟩
    · rw [walkN_succ]
      exact h2
    · intro i hi
      cases i with
      | zero => exact hinf
      | succ i' =>
        rw [walkN_succ]
        exact h3 i' (by omega)
    · intro i hi
      cases i with
      | zero =>
        exact hmem
      | succ i' =>
        rw [walkN_succ]
        intro hx
        exact h4 i' (by omega) (List.mem_cons_of_mem _ hx)
    · intro i j hij hjm
      cases i with
      | zero =>
        cases j with
        | zero => omega
        | succ j' =>
          rw [walkN_succ]
          by_cases hj' : j' = m
          · subst hj'
            rw [h2]
            exact hne
          · intro hx
            exact h4 j' (by omega) (by rw [← hx]; exact List.mem_cons_self _ _)
      | succ i' =>
        cases j with
        | zero => omega
        | succ j' =>
          rw [walkN_succ, walkN_succ]
          exact h5 i' j' (by omega) (by omega)

theorem getHopCount_finite_walk (r : RoutingTables) (src dst : Nat)
    (h : GetHopCount r src dst ≠ UINT32_MAX) :
    walkN r dst (GetHopCount r src dst) src = dst ∧
    (∀ i < GetHopCount r src dst, GetNextHop r (walkN r dst i src) dst ≠ UINT32_MAX) ∧
    (∀ i j, i < j → j ≤ GetHopCount r src dst →
      walkN r dst i src ≠ walkN r dst j src) := by
  unfold GetHopCount at h ⊢
  by_cases hsd : src = dst
  · simp only [if_pos hsd]
    subst hsd
    exact ⟨rfl, by omega, by omega⟩
  · simp only [if_neg hsd] at h ⊢
    obtain ⟨m, h1, h2, h3, h4, h5⟩ := hopLoop_finite_walk r dst src 0 [] h
    rw [h1]
    simp only [Nat.zero_add]
    exact ⟨h2, h3, h5⟩

/-- C4: GetHopCount never loops forever (it is a total function, the source's
own 100-iteration cap and visited-set check bounding the walk); on the
deliberately corrupted table with the 2-node cycle NextHop(0,2) = 1,
NextHop(1,2) = 0 it returns the UINT32_MAX sentinel; and whenever it returns
anything other than the sentinel, the next-hop walk it followed reached dst
with an entry at every step and never revisited a node — so a walk that
revisits a node or finds no entry can only ever produce UINT32_MAX. -/
theorem C4_hop_count_loop_protection :
    GetHopCount corruptTable 0 2 = UINT32_MAX ∧
    ∀ (r : RoutingTables) (src dst : Nat),
      GetHopCount r src dst ≠ UINT32_MAX →
      walkN r dst (GetHopCount r src dst) src = dst ∧
      (∀ i < GetHopCount r src dst, GetNextHop r (walkN r dst i src) dst ≠ UINT32_MAX) ∧
      (∀ i j, i < j → j ≤ GetHopCount r src dst →
        walkN r dst i src ≠ walkN r dst j src) := by
  constructor
  · simp [GetHopCount, hopLoop, GetNextHop, corruptTable, SetNextHop, emptyRoutes, UINT32_MAX]
  · exact getHopCount_finite_walk

theorem C4_hop_count_loop_protection_witness :
    GetHopCount (SetNextHop emptyRoutes 0 1 1) 0 1 ≠ UINT32_MAX ∧
    walkN (SetNextHop emptyRoutes 0 1 1) 1
      (GetHopCount (SetNextHop emptyRoutes 0 1 1) 0 1) 0 = 1 := by
  have hval : GetHopCount (SetNextHop emptyRoutes 0 1 1) 0 1 = 1 := by
    simp [GetHopCount, hopLoop, GetNextHop, SetNextHop, emptyRoutes, UINT32_MAX]
  refine ⟨by rw [hval]; decide, ?_⟩
  exact (C4_hop_count_loop_protection.2 (SetNextHop emptyRoutes 0 1 1) 0 1
    (by rw [hval]; decide)).1

/-! ### Dijkstra run: the popped minimum is settled -/

theorem bool_not_true {b : Bool} (h : ¬b = true) : b = false := by
  cases b
  · rfl
  · exact absurd rfl h

theorem dinv_frontier {t : IslTopology} {src : Nat} {visited : List Bool} {s : DState}
    (hwf : TopoWF t) (hinv : DInv t src visited s) :
    ∀ (m w : Nat), w < t.numSatellites → ShortestLen t src w m →
      visited.getD w false = false →
      ∃ y, y < t.numSatellites ∧ visited.getD y false = false ∧
        s.dist.getD y 0 ≠ UINT32_MAX ∧ s.dist.getD y 0 ≤ m := by
  intro m
  induction m using Nat.strong_induction_on with
  | _ m ih =>
    intro w hw hsw hwv
    cases m with
    | zero =>
      have hws : src = w := shortest_zero hsw
      subst hws
      refine ⟨src, hw, hwv, ?_, ?_⟩
      · rw [hinv.dist0]
        decide
      · rw [hinv.dist0]
    | succ k =>
      obtain ⟨x, hx1, hx2⟩ := pathLen_succ_inv hsw.1
      have hreach : Reach t src x := ⟨k, hx1⟩
      obtain ⟨mx, hmx⟩ := reach_shortest hreach
      have hmxk : mx ≤ k := hmx.2 k hx1
      have hxlt : x < t.numSatellites := by
        by_cases hk : k = 0
        · subst hk
          have := pathLen_zero hx1
          rw [← this]
          exact hinv.hsrc
        · exact (pathLen_lt hwf hx1 (by omega)).2
      by_cases hxv : visited.getD x false = true
      · have hvd := hinv.visitedDist x hxlt hxv
        have hdx : s.dist.getD x 0 = mx := shortest_unique hvd.2 hmx
        have hrel := hinv.relaxedAll x hxlt hxv w hx2
        refine ⟨w, hw, hwv, hrel.1, ?_⟩
        omega
      · have hxvf : visited.getD x false = false := bool_not_true hxv
        obtain ⟨y, hy1, hy2, hy3, hy4⟩ := ih mx (by omega) x hxlt hmx hxvf
        exact ⟨y, hy1, hy2, hy3, by omega⟩

theorem pop_shortest {t : IslTopology} {src : Nat} {visited : List Bool} {s : DState}
    (hwf : TopoWF t) (hinv : DInv t src visited s)
    {d u : Nat} {pq' : List (Nat × Nat)}
    (hpop : popMin s.pq = some ((d, u), pq'))
    (huv : visited.getD u false = false) :
    u < t.numSatellites ∧ s.dist.getD u 0 ≠ UINT32_MAX ∧
      ShortestLen t src u (s.dist.getD u 0) := by
  have hmem := popMin_mem hpop
  obtain ⟨hun, hfin, hdu⟩ := hinv.pqOK _ hmem
  refine ⟨hun, hfin, ?_⟩
  have hub := hinv.distUB u hun hfin
  obtain ⟨m, hm⟩ := reach_shortest ⟨_, hub⟩
  have hmle : m ≤ s.dist.getD u 0 := hm.2 _ hub
  obtain ⟨y, hy1, hy2, hy3, hy4⟩ := dinv_frontier hwf hinv m u hun hm huv
  have hyc := hinv.pqCover y hy1 hy3 hy2
  have hdy : d ≤ s.dist.getD y 0 := by simpa using popMin_min hpop _ hyc
  have : s.dist.getD u 0 = m := by simp only at hdu; omega
  rw [this]
  exact hm

/-! ### Relaxation preserves the invariant -/

theorem relax_update_mid {t : IslTopology} {src u : Nat} {visited : List Bool} {s : DState}
    {v : Nat} (hwf : TopoWF t) (hmid : DMid t src u visited s) (hv : memNbr t u v)
    (hvun : visited.getD v false = false)
    (hlt : s.dist.getD u 0 + 1 < s.dist.getD v 0) :
    DMid t src u visited
      { dist := s.dist.set v (s.dist.getD u 0 + 1),
        prev := s.prev.set v u,
        pq := s.pq ++ [(s.dist.getD u 0 + 1, v)] } := by
  have hvlt : v < t.numSatellites := (memNbr_lt hwf hv).2
  have hvu : v ≠ u := by
    intro h
    rw [h] at hvun
    rw [hmid.uVis] at hvun
    exact absurd hvun (by decide)
  have hvsrc : v ≠ src := by
    intro h
    rw [h, hmid.dist0] at hlt
    omega
  have hcount := count_true_le_length visited
  have hlenV := hmid.lenV
  have hnewfin : s.dist.getD u 0 + 1 ≠ UINT32_MAX := by
    have h1 := hmid.uBound
    have h2 := hmid.hn
    omega
  have hdl : v < s.dist.length := by rw [hmid.lenD]; exact hvlt
  have hpl : v < s.prev.length := by rw [hmid.lenP]; exact hvlt
  have hd1v : (s.dist.set v (s.dist.getD u 0 + 1)).getD v 0 = s.dist.getD u 0 + 1 :=
    getD_set_self _ _ _ _ hdl
  have hd1w : ∀ w, w ≠ v → (s.dist.set v (s.dist.getD u 0 + 1)).getD w 0 = s.dist.getD w 0 :=
    fun w hw => getD_set_ne _ _ _ _ _ (fun h => hw h.symm)
  have hp1v : (s.prev.set v u).getD v 0 = u := getD_set_self _ _ _ _ hpl
  have hp1w : ∀ w, w ≠ v → (s.prev.set v u).getD w 0 = s.prev.getD w 0 :=
    fun w hw => getD_set_ne _ _ _ _ _ (fun h => hw h.symm)
  refine
    { hsrc := hmid.hsrc, hn := hmid.hn, hu := hmid.hu
      lenD := by simpa using hmid.lenD
      lenP := by simpa using hmid.lenP
      lenV := hmid.lenV
      dist0 := by rw [hd1w src (fun h => hvsrc h.symm)]; exact hmid.dist0
      distUB := ?_, distBound := ?_, visitedDist := ?_, prevOK := ?_
      pqOK := ?_, pqCover := ?_, relaxedAllOld := ?_
      uVis := hmid.uVis
      uDist := by rw [hd1w u (fun h => hvu h.symm)]; exact hmid.uDist
      uShort := by rw [hd1w u (fun h => hvu h.symm)]; exact hmid.uShort
      uBound := by rw [hd1w u (fun h => hvu h.symm)]; exact hmid.uBound }
  · intro w hw hwfin
    by_cases hwv : w = v
    · subst hwv
      rw [hd1v]
      exact PathLen.step hmid.uShort.1 hv
    · rw [hd1w w hwv] at hwfin ⊢
      exact hmid.distUB w hw hwfin
  · intro w hw hwfin
    by_cases hwv : w = v
    · subst hwv
      rw [hd1v]
      have := hmid.uBound
      omega
    · rw [hd1w w hwv] at hwfin ⊢
      exact hmid.distBound w hw hwfin
  · intro w hw hwvis
    have hwv : w ≠ v := by
      intro h
      rw [h, hvun] at hwvis
      exact absurd hwvis (by decide)
    rw [hd1w w hwv]
    exact hmid.visitedDist w hw hwvis
  · intro w hw hwsrc hwfin
    by_cases hwv : w = v
    · subst hwv
      rw [hd1v, hp1v, hd1w u (fun h => hvu h.symm)]
      exact ⟨hmid.hu, hmid.uVis, hv, hmid.uDist, rfl⟩
    · rw [hd1w w hwv] at hwfin ⊢
      rw [hp1w w hwv]
      obtain ⟨h1, h2, h3, h4, h5⟩ := hmid.prevOK w hw hwsrc hwfin
      have hpv : s.prev.getD w 0 ≠ v := by
        intro h
        rw [h, hvun] at h2
        exact absurd h2 (by decide)
      rw [hd1w _ hpv]
      exact ⟨h1, h2, h3, h4, h5⟩
  · intro p hp
    rw [List.mem_append] at hp
    rcases hp with hp | hp
    · obtain ⟨h1, h2, h3⟩ := hmid.pqOK p hp
      refine ⟨h1, ?_, ?_⟩
      · by_cases hpv : p.2 = v
        · rw [hpv, hd1v]; exact hnewfin
        · rw [hd1w _ hpv]; exact h2
      · by_cases hpv : p.2 = v
        · rw [hpv, hd1v]
          rw [hpv] at h3
          omega
        · rw [hd1w _ hpv]; exact h3
    · simp only [List.mem_singleton] at hp
      subst hp
      exact ⟨hvlt, by rw [hd1v]; exact hnewfin, by rw [hd1v]⟩
  · intro w hw hwfin hwun
    by_cases hwv : w = v
    · subst hwv
      rw [hd1v]
      simp
    · rw [hd1w w hwv] at hwfin ⊢
      exact List.mem_append_left _ (hmid.pqCover w hw hwfin hwun)
  · intro x hx hxvis hxu v' hv'
    have hxv : x ≠ v := by
      intro h
      rw [h, hvun] at hxvis
      exact absurd hxvis (by decide)
    rw [hd1w x hxv]
    obtain ⟨h1, h2⟩ := hmid.relaxedAllOld x hx hxvis hxu v' hv'
    by_cases hv'v : v' = v
    · subst hv'v
      rw [hd1v]
      constructor
      · exact hnewfin
      · omega
    · rw [hd1w v' hv'v]
      exact ⟨h1, h2⟩

theorem relaxAll_mid {t : IslTopology} {src u : Nat} (hwf : TopoWF t) :
    ∀ (L : List Nat) (visited : List Bool) (s : DState),
      DMid t src u visited s → (∀ v ∈ L, memNbr t u v) →
      DMid t src u visited (relaxAll u visited L s) ∧
      (relaxAll u visited L s).dist.getD u 0 = s.dist.getD u 0 ∧
      (∀ w, s.dist.getD w 0 ≠ UINT32_MAX →
        (relaxAll u visited L s).dist.getD w 0 ≠ UINT32_MAX ∧
        (relaxAll u visited L s).dist.getD w 0 ≤ s.dist.getD w 0) ∧
      (∀ p ∈ s.pq, p ∈ (relaxAll u visited L s).pq) ∧
      (∀ v ∈ L, (relaxAll u visited L s).dist.getD v 0 ≠ UINT32_MAX ∧
        (relaxAll u visited L s).dist.getD v 0 ≤ s.dist.getD u 0 + 1) := by
  intro L
  induction L with
  | nil =>
    intro visited s hmid _
    exact ⟨hmid, rfl, fun w hw => ⟨hw, Nat.le_refl _⟩, fun p hp => hp, by simp⟩
  | cons v vs ih =>
    intro visited s hmid hL
    have hv : memNbr t u v := hL v (List.mem_cons_self _ _)
    have hvlt : v < t.numSatellites := (memNbr_lt hwf hv).2
    have hvd : v < s.dist.length := by rw [hmid.lenD]; exact hvlt
    have hvv : v < visited.length := by rw [hmid.lenV]; exact hvlt
    have hgd : visited.getD v true = visited.getD v false := getD_congr _ _ _ _ hvv
    -- the one-step state s1 and its properties
    by_cases hvis : visited.getD v false = true
    · -- neighbor already visited: step leaves s unchanged
      have hstep : relaxAll u visited (v :: vs) s = relaxAll u visited vs s := by
        simp only [relaxAll]
        rw [hgd, if_pos hvis]
      rw [hstep]
      obtain ⟨h1, h2, h3, h4, h5⟩ := ih visited s hmid (fun x hx => hL x (List.mem_cons_of_mem _ hx))
      refine ⟨h1, h2, h3, h4, ?_⟩
      intro w hw
      rcases List.mem_cons.mp hw with rfl | hw2
      · -- dist w = shortest ≤ dist u + 1 via triangle, preserved by monotonicity
        obtain ⟨hfin, hsh⟩ := hmid.visitedDist w hvlt hvis
        have htri : s.dist.getD w 0 ≤ s.dist.getD u 0 + 1 :=
          shortest_unique hsh hsh ▸ hsh.2 _ (PathLen.step hmid.uShort.1 hv)
        obtain ⟨hf2, hle2⟩ := h3 w hfin
        exact ⟨hf2, by omega⟩
      · exact h5 w hw2
    · have hvun : visited.getD v false = false := bool_not_true hvis
      by_cases hlt : s.dist.getD u 0 + 1 < s.dist.getD v 0
      · -- genuine relaxation: update dist/prev and push
        have hstep : relaxAll u visited (v :: vs) s = relaxAll u visited vs
            { dist := s.dist.set v (s.dist.getD u 0 + 1),
              prev := s.prev.set v u,
              pq := s.pq ++ [(s.dist.getD u 0 + 1, v)] } := by
          simp only [relaxAll]
          rw [hgd, if_neg (by rw [hvun]; exact Bool.false_ne_true), if_pos hlt]
        rw [hstep]
        have hmid1 := relax_update_mid hwf hmid hv hvun hlt
        obtain ⟨h1, h2, h3, h4, h5⟩ :=
          ih visited _ hmid1 (fun x hx => hL x (List.mem_cons_of_mem _ hx))
        have hvu : v ≠ u := by
          intro h
          rw [h, hmid.uVis] at hvun
          exact absurd hvun (by decide)
        have hd1v : (s.dist.set v (s.dist.getD u 0 + 1)).getD v 0 = s.dist.getD u 0 + 1 :=
          getD_set_self _ _ _ _ hvd
        have hd1w : ∀ w, w ≠ v →
            (s.dist.set v (s.dist.getD u 0 + 1)).getD w 0 = s.dist.getD w 0 :=
          fun w hw => getD_set_ne _ _ _ _ _ (fun h => hw h.symm)
        have hdu1 : (s.dist.set v (s.dist.getD u 0 + 1)).getD u 0 = s.dist.getD u 0 :=
          hd1w u (fun h => hvu h.symm)
        refine ⟨h1, by rw [h2, hdu1], ?_, ?_, ?_⟩
        · intro w hwfin
          by_cases hwv : w = v
          · subst hwv
            have hnf : (s.dist.set w (s.dist.getD u 0 + 1)).getD w 0 ≠ UINT32_MAX := by
              rw [hd1v]
              have h6 := hmid.uBound
              have h7 := hmid.hn
              have h8 := count_true_le_length visited
              have h9 := hmid.lenV
              omega
            obtain ⟨ha, hb⟩ := h3 w hnf
            refine ⟨ha, ?_⟩
            rw [hd1v] at hb
            omega
          · obtain ⟨ha, hb⟩ := h3 w (by rw [hd1w w hwv]; exact hwfin)
            rw [hd1w w hwv] at hb
            exact ⟨ha, hb⟩
        · intro p hp
          exact h4 p (List.mem_append_left _ hp)
        · intro w hw
          rcases List.mem_cons.mp hw with rfl | hw2
          · have hnf : (s.dist.set w (s.dist.getD u 0 + 1)).getD w 0 ≠ UINT32_MAX := by
              rw [hd1v]
              have h6 := hmid.uBound
              have h7 := hmid.hn
              have h8 := count_true_le_length visited
              have h9 := hmid.lenV
              omega
            obtain ⟨ha, hb⟩ := h3 w hnf
            rw [hd1v] at hb
            exact ⟨ha, hb⟩
          · obtain ⟨ha, hb⟩ := h5 w hw2
            rw [hdu1] at hb
            exact ⟨ha, hb⟩
      · -- no improvement: step leaves s unchanged
        have hstep : relaxAll u visited (v :: vs) s = relaxAll u visited vs s := by
          simp only [relaxAll]
          rw [hgd, if_neg (by rw [hvun]; exact Bool.false_ne_true), if_neg hlt]
        rw [hstep]
        obtain ⟨h1, h2, h3, h4, h5⟩ :=
          ih visited s hmid (fun x hx => hL x (List.mem_cons_of_mem _ hx))
        refine ⟨h1, h2, h3, h4, ?_⟩
        intro w hw
        rcases List.mem_cons.mp hw with rfl | hw2
        · have hfin : s.dist.getD w 0 ≠ UINT32_MAX := by
            have h6 := hmid.uBound
            have h7 := hmid.hn
            have h8 := count_true_le_length visited
            have h9 := hmid.lenV
            omega
          obtain ⟨ha, hb⟩ := h3 w hfin
          exact ⟨ha, by omega⟩
        · exact h5 w hw2

theorem getD_replicate {α : Type} (n i : Nat) (a d : α) (h : i < n) :
    (List.replicate n a).getD i d = a := by
  induction n generalizing i with
  | zero => omega
  | succ m ih =>
    cases i with
    | zero => simp [List.replicate]
    | succ j =>
      simp only [List.replicate, List.getD_cons_succ]
      exact ih j (by omega)

theorem visit_step {t : IslTopology} {src : Nat} (hwf : TopoWF t)
    {visited : List Bool} {s : DState} {d u : Nat} {pq' : List (Nat × Nat)}
    (hinv : DInv t src visited s)
    (hpop : popMin s.pq = some ((d, u), pq'))
    (huv : visited.getD u false = false) :
    DInv t src (visited.set u true)
      (relaxAll u (visited.set u true) (nbrList t u)
        { dist := s.dist, prev := s.prev, pq := pq' }) := by
  obtain ⟨hun, hfin, hshort⟩ := pop_shortest hwf hinv hpop huv
  have hul : u < visited.length := by rw [hinv.lenV]; exact hun
  have hcnt : (visited.set u true).count true = visited.count true + 1 :=
    count_true_set hul huv
  have hv'u : (visited.set u true).getD u false = true := getD_set_self _ _ _ _ hul
  have hv'w : ∀ w, w ≠ u → (visited.set u true).getD w false = visited.getD w false :=
    fun w hw => getD_set_ne _ _ _ _ _ (fun h => hw h.symm)
  have hmid : DMid t src u (visited.set u true) { dist := s.dist, prev := s.prev, pq := pq' } :=
    { hsrc := hinv.hsrc, hn := hinv.hn, hu := hun
      lenD := hinv.lenD, lenP := hinv.lenP
      lenV := by simpa using hinv.lenV
      dist0 := hinv.dist0
      distUB := hinv.distUB
      distBound := by
        intro w hw hwfin
        dsimp only at hwfin ⊢
        have := hinv.distBound w hw hwfin
        omega
      visitedDist := by
        intro w hw hwvis
        by_cases hwu : w = u
        · subst hwu
          exact ⟨hfin, hshort⟩
        · rw [hv'w w hwu] at hwvis
          exact hinv.visitedDist w hw hwvis
      prevOK := by
        intro w hw hwsrc hwfin
        obtain ⟨h1, h2, h3, h4, h5⟩ := hinv.prevOK w hw hwsrc hwfin
        refine ⟨h1, ?_, h3, h4, h5⟩
        by_cases hpu : s.prev.getD w 0 = u
        · rw [hpu, hv'u]
        · rw [hv'w _ hpu]
          exact h2
      pqOK := fun p hp => hinv.pqOK p (popMin_mem_rest hpop hp)
      pqCover := by
        intro w hw hwfin hwun
        have hwu : w ≠ u := by
          intro h
          rw [h, hv'u] at hwun
          exact absurd hwun (by decide)
        rw [hv'w w hwu] at hwun
        have hold := hinv.pqCover w hw hwfin hwun
        refine popMin_cover hpop hold ?_
        intro h
        exact hwu (congrArg Prod.snd h)
      relaxedAllOld := by
        intro x hx hxvis hxu v' hv'
        rw [hv'w x hxu] at hxvis
        exact hinv.relaxedAll x hx hxvis v' hv'
      uVis := hv'u
      uDist := hfin
      uShort := hshort
      uBound := by
        dsimp only
        have := hinv.distBound u hun hfin
        omega }
  obtain ⟨hm, h2, h3, h4, h5⟩ := relaxAll_mid hwf (nbrList t u) (visited.set u true)
    { dist := s.dist, prev := s.prev, pq := pq' } hmid (fun v hv => hv)
  exact
    { hsrc := hm.hsrc, hn := hm.hn
      lenD := hm.lenD, lenP := hm.lenP, lenV := hm.lenV
      dist0 := hm.dist0
      distUB := hm.distUB
      distBound := hm.distBound
      visitedDist := hm.visitedDist
      prevOK := hm.prevOK
      pqOK := hm.pqOK
      pqCover := hm.pqCover
      relaxedAll := by
        intro x hx hxvis v' hv'
        by_cases hxu : x = u
        · subst hxu
          have := h5 v' hv'
          rw [h2]
          exact this
        · exact hm.relaxedAllOld x hx hxvis hxu v' hv' }

theorem skip_step {t : IslTopology} {src : Nat}
    {visited : List Bool} {s : DState} {d u : Nat} {pq' : List (Nat × Nat)}
    (hinv : DInv t src visited s)
    (hpop : popMin s.pq = some ((d, u), pq'))
    (huv : visited.getD u true = true) :
    DInv t src visited { dist := s.dist, prev := s.prev, pq := pq' } := by
  have hun : u < t.numSatellites := (hinv.pqOK _ (popMin_mem hpop)).1
  have hul : u < visited.length := by rw [hinv.lenV]; exact hun
  have huvis : visited.getD u false = true := by
    rw [getD_congr visited u false true hul]
    exact huv
  exact
    { hsrc := hinv.hsrc, hn := hinv.hn
      lenD := hinv.lenD, lenP := hinv.lenP, lenV := hinv.lenV
      dist0 := hinv.dist0
      distUB := hinv.distUB
      distBound := hinv.distBound
      visitedDist := hinv.visitedDist
      prevOK := hinv.prevOK
      pqOK := fun p hp => hinv.pqOK p (popMin_mem_rest hpop hp)
      pqCover := by
        intro w hw hwfin hwun
        have hwu : w ≠ u := by
          intro h
          rw [h, huvis] at hwun
          exact absurd hwun (by decide)
        have hold := hinv.pqCover w hw hwfin hwun
        refine popMin_cover hpop hold ?_
        intro h
        exact hwu (congrArg Prod.snd h)
      relaxedAll := hinv.relaxedAll }

theorem dinv_init {t : IslTopology} {src : Nat} (hsrc : src < t.numSatellites)
    (hn : t.numSatellites < UINT32_MAX) :
    DInv t src (List.replicate t.numSatellites false)
      { dist := (List.replicate t.numSatellites UINT32_MAX).set src 0,
        prev := List.replicate t.numSatellites UINT32_MAX,
        pq := [(0, src)] } := by
  have hsl : src < (List.replicate t.numSatellites UINT32_MAX).length := by
    simpa using hsrc
  have hd0 : ((List.replicate t.numSatellites UINT32_MAX).set src 0).getD src 0 = 0 :=
    getD_set_self _ _ _ _ hsl
  have hdw : ∀ w, w < t.numSatellites → w ≠ src →
      ((List.replicate t.numSatellites UINT32_MAX).set src 0).getD w 0 = UINT32_MAX := by
    intro w hw hws
    rw [getD_set_ne _ _ _ _ _ (fun h => hws h.symm)]
    exact getD_replicate _ _ _ _ hw
  have hvw : ∀ w, (List.replicate t.numSatellites false).getD w false = false := by
    intro w
    by_cases hw : w < t.numSatellites
    · exact getD_replicate _ _ _ _ hw
    · rw [List.getD_eq_default]
      simpa using (by omega : ¬ w < t.numSatellites)
  have hc0 : (List.replicate t.numSatellites false).count true = 0 := by
    simp [List.count_replicate]
  refine
    { hsrc := hsrc, hn := hn
      lenD := by simp
      lenP := by simp
      lenV := by simp
      dist0 := hd0
      distUB := ?_, distBound := ?_, visitedDist := ?_, prevOK := ?_
      pqOK := ?_, pqCover := ?_, relaxedAll := ?_ }
  · intro v hv hvfin
    by_cases hvs : v = src
    · subst hvs
      rw [hd0]
      exact PathLen.refl v
    · rw [hdw v hv hvs] at hvfin
      exact absurd rfl hvfin
  · intro v hv hvfin
    by_cases hvs : v = src
    · subst hvs
      rw [hd0, hc0]
    · rw [hdw v hv hvs] at hvfin
      exact absurd rfl hvfin
  · intro v hv hvvis
    rw [hvw v] at hvvis
    exact absurd hvvis (by decide)
  · intro v hv hvs hvfin
    rw [hdw v hv hvs] at hvfin
    exact absurd rfl hvfin
  · intro p hp
    simp only [List.mem_singleton] at hp
    subst hp
    exact ⟨hsrc, by rw [hd0]; decide, by rw [hd0]⟩
  · intro v hv hvfin hvun
    by_cases hvs : v = src
    · subst hvs
      rw [hd0]
      simp
    · rw [hdw v hv hvs] at hvfin
      exact absurd rfl hvfin
  · intro x hx hxvis
    rw [hvw x] at hxvis
    exact absurd hxvis (by decide)

theorem dijkstraLoop_none {t : IslTopology} {visited : List Bool} {s : DState}
    (hpop : popMin s.pq = none) : dijkstraLoop t visited s = (s.dist, s.prev) := by
  rw [dijkstraLoop]
  split
  · rfl
  · rename_i h2
    rw [hpop] at h2
    cases h2

theorem dijkstraLoop_skip {t : IslTopology} {visited : List Bool} {s : DState}
    {d u : Nat} {pq' : List (Nat × Nat)}
    (hpop : popMin s.pq = some ((d, u), pq')) (hvis : visited.getD u true = true) :
    dijkstraLoop t visited s = dijkstraLoop t visited { s with pq := pq' } := by
  rw [dijkstraLoop]
  split
  · rename_i h2
    rw [hpop] at h2
    cases h2
  · rename_i d2 u2 pq2 h2
    rw [hpop] at h2
    cases h2
    rw [dif_pos hvis]

theorem dijkstraLoop_visit {t : IslTopology} {visited : List Bool} {s : DState}
    {d u : Nat} {pq' : List (Nat × Nat)}
    (hpop : popMin s.pq = some ((d, u), pq')) (hvis : ¬visited.getD u true = true) :
    dijkstraLoop t visited s =
      dijkstraLoop t (visited.set u true)
        (relaxAll u (visited.set u true) (nbrList t u) { s with pq := pq' }) := by
  rw [dijkstraLoop]
  split
  · rename_i h2
    rw [hpop] at h2
    cases h2
  · rename_i d2 u2 pq2 h2
    rw [hpop] at h2
    cases h2
    rw [dif_neg hvis]

theorem dloop_post {t : IslTopology} {src : Nat} (hwf : TopoWF t) :
    ∀ (visited : List Bool) (s : DState), DInv t src visited s →
      DPost t src (dijkstraLoop t visited s).1 (dijkstraLoop t visited s).2 := by
  intro visited0 s0
  refine dijkstraLoop.induct t
    (fun visited s => DInv t src visited s →
      DPost t src (dijkstraLoop t visited s).1 (dijkstraLoop t visited s).2)
    ?_ ?_ ?_ visited0 s0
  · -- queue exhausted: the final arrays satisfy DPost
    intro visited s hpop hinv
    rw [dijkstraLoop_none hpop]
    dsimp only
    have hpq : s.pq = [] := popMin_none hpop
    have hvis : ∀ v, v < t.numSatellites → s.dist.getD v 0 ≠ UINT32_MAX →
        visited.getD v false = true := by
      intro v hv hvfin
      by_contra hun
      have := hinv.pqCover v hv hvfin (bool_not_true hun)
      rw [hpq] at this
      simp at this
    refine
      { lenD := hinv.lenD, lenP := hinv.lenP, dist0 := hinv.dist0
        distSh := ?_, distReach := ?_, distBound := ?_, prevOK := ?_ }
    · intro v hv hvfin
      exact (hinv.visitedDist v hv (hvis v hv hvfin)).2
    · intro v hv hreach
      obtain ⟨k, hk⟩ := hreach
      clear hv
      induction hk with
      | refl =>
        rw [hinv.dist0]
        decide
      | @step w' v' k' hp he ih =>
        have hw' : w' < t.numSatellites := (memNbr_lt hwf he).1
        have hfin' := ih
        have hvisw := hvis w' hw' hfin'
        exact (hinv.relaxedAll w' hw' hvisw v' he).1
    · intro v hv hvfin
      have h1 := hinv.distBound v hv hvfin
      have h2 := count_true_le_length visited
      have h3 := hinv.lenV
      omega
    · intro v hv hvs hvfin
      obtain ⟨h1, h2, h3, h4, h5⟩ := hinv.prevOK v hv hvs hvfin
      exact ⟨h1, h3, h4, h5⟩
  · -- pop of an already visited node
    intro visited s d u pq' hpop hvis ih hinv
    rw [dijkstraLoop_skip hpop hvis]
    exact ih (skip_step hinv hpop hvis)
  · -- pop of an unvisited node: settle it and relax its neighbors
    intro visited s d u pq' hpop hvis vis2 ih hinv
    rw [dijkstraLoop_visit hpop hvis]
    have hun : u < t.numSatellites := (hinv.pqOK _ (popMin_mem hpop)).1
    have hul : u < visited.length := by rw [hinv.lenV]; exact hun
    have huv : visited.getD u false = false := by
      rw [getD_congr visited u false true hul]
      exact bool_not_true hvis
    exact ih (visit_step hwf hinv hpop huv)

theorem dijkstraRun_post {t : IslTopology} {src : Nat} (hwf : TopoWF t)
    (hsrc : src < t.numSatellites) (hn : t.numSatellites < UINT32_MAX) :
    DPost t src (dijkstraRun t src).1 (dijkstraRun t src).2 := by
  unfold dijkstraRun
  exact dloop_post hwf _ _ (dinv_init hsrc hn)

/-! ### Trace-back extracts the true first hop -/

theorem traceBack_spec {t : IslTopology} {src : Nat} {dist prev : List Nat}
    (hpost : DPost t src dist prev) (hn : t.numSatellites < UINT32_MAX) :
    ∀ (fuel v : Nat), v < t.numSatellites → v ≠ src → dist.getD v 0 ≠ UINT32_MAX →
      dist.getD v 0 ≤ fuel →
      memNbr t src (traceBack prev src fuel v) ∧
        traceBack prev src fuel v < t.numSatellites ∧
        dist.getD (traceBack prev src fuel v) 0 = 1 ∧
        PathLen t (traceBack prev src fuel v) v (dist.getD v 0 - 1) := by
  intro fuel
  induction fuel with
  | zero =>
    intro v hv hvs hvfin hvle
    have hsh := hpost.distSh v hv hvfin
    have hpos := shortest_pos hsh (fun h => hvs h.symm)
    omega
  | succ fuel ih =>
    intro v hv hvs hvfin hvle
    obtain ⟨h1, h2, h3, h4⟩ := hpost.prevOK v hv hvs hvfin
    have hsh := hpost.distSh v hv hvfin
    have hpos := shortest_pos hsh (fun h => hvs h.symm)
    simp only [traceBack]
    by_cases hp : prev.getD v UINT32_MAX = src ∨ prev.getD v UINT32_MAX = UINT32_MAX
    · rw [if_pos hp]
      -- the chain stops: prev[v] must be src (it is < numSatellites < UINT32_MAX)
      have hpl : v < prev.length := by rw [hpost.lenP]; exact hv
      have hgp : prev.getD v UINT32_MAX = prev.getD v 0 := getD_congr _ _ _ _ hpl
      have hpsrc : prev.getD v 0 = src := by
        rcases hp with hp | hp
        · rw [← hgp]; exact hp
        · rw [hgp] at hp
          omega
      rw [hpsrc] at h2 h3 h4
      have hd1 : dist.getD v 0 = 1 := by
        rw [hpost.dist0] at h4
        omega
      rw [hd1]
      exact ⟨h2, hv, rfl, PathLen.refl v⟩
    · rw [if_neg hp]
      push_neg at hp
      have hpl : v < prev.length := by rw [hpost.lenP]; exact hv
      have hgp : prev.getD v UINT32_MAX = prev.getD v 0 := getD_congr _ _ _ _ hpl
      rw [hgp]
      have hpns : prev.getD v 0 ≠ src := by rw [← hgp]; exact hp.1
      have hdp1 : dist.getD (prev.getD v 0) 0 = dist.getD v 0 - 1 := by omega
      obtain ⟨g1, g2, g3, g4⟩ := ih (prev.getD v 0) h1 hpns h3 (by omega)
      refine ⟨g1, g2, g3, ?_⟩
      have : dist.getD v 0 - 1 = (dist.getD (prev.getD v 0) 0 - 1) + 1 := by
        have hshp := hpost.distSh _ h1 h3
        have hposp := shortest_pos hshp (fun h => hpns h.symm)
        omega
      rw [this]
      exact PathLen.step g4 h2

/-! ### Table lookup structure of ComputeStaticRoutes -/

theorem computeForSource_lookup {t : IslTopology} {src : Nat} (r : RoutingTables)
    (a b : Nat) :
    (computeForSource t src r).nextHop a b =
      if a = src ∧ b ∈ List.range t.numSatellites ∧ src ≠ b ∧
          (dijkstraRun t src).1.getD b UINT32_MAX ≠ UINT32_MAX
      then some (traceBack (dijkstraRun t src).2 src t.numSatellites b)
      else r.nextHop a b := by
  unfold computeForSource
  have key : ∀ (L : List Nat) (r : RoutingTables),
      (L.foldl (fun racc dst =>
          if src = dst then racc
          else if (dijkstraRun t src).1.getD dst UINT32_MAX = UINT32_MAX then racc
          else SetNextHop racc src dst
            (traceBack (dijkstraRun t src).2 src t.numSatellites dst)) r).nextHop a b =
      if a = src ∧ b ∈ L ∧ src ≠ b ∧
          (dijkstraRun t src).1.getD b UINT32_MAX ≠ UINT32_MAX
      then some (traceBack (dijkstraRun t src).2 src t.numSatellites b)
      else r.nextHop a b := by
    intro L
    induction L with
    | nil =>
      intro r
      simp
    | cons dh ds ih =>
      intro r
      simp only [List.foldl_cons]
      rw [ih]
      by_cases hds : a = src ∧ b ∈ ds ∧ src ≠ b ∧
          (dijkstraRun t src).1.getD b UINT32_MAX ≠ UINT32_MAX
      · have hc0 : a = src ∧ b ∈ dh :: ds ∧ src ≠ b ∧
            (dijkstraRun t src).1.getD b UINT32_MAX ≠ UINT32_MAX :=
          ⟨hds.1, List.mem_cons_of_mem _ hds.2.1, hds.2.2⟩
        rw [if_pos hds, if_pos hc0]
      · rw [if_neg hds]
        by_cases hcons : a = src ∧ b ∈ dh :: ds ∧ src ≠ b ∧
            (dijkstraRun t src).1.getD b UINT32_MAX ≠ UINT32_MAX
        · -- b must be the head and the step genuinely sets (src, b)
          obtain ⟨ha, hb, hsb, hfb⟩ := hcons
          have hbdh : b = dh := by
            rcases List.mem_cons.mp hb with h | h
            · exact h
            · exact absurd ⟨ha, h, hsb, hfb⟩ hds
          subst hbdh
          have hc1 : a = src ∧ b ∈ b :: ds ∧ src ≠ b ∧
              (dijkstraRun t src).1.getD b UINT32_MAX ≠ UINT32_MAX :=
            ⟨ha, List.mem_cons_self _ _, hsb, hfb⟩
          rw [if_pos hc1]
          rw [if_neg (fun h => hsb h), if_neg hfb]
          simp only [SetNextHop]
          have hc2 : a = src ∧ True := ⟨ha, trivial⟩
          rw [if_pos hc2]
        · rw [if_neg hcons]
          -- the step never writes the (a, b) entry here
          by_cases h1 : src = dh
          · rw [if_pos h1]
          · rw [if_neg h1]
            by_cases h2 : (dijkstraRun t src).1.getD dh UINT32_MAX = UINT32_MAX
            · rw [if_pos h2]
            · rw [if_neg h2]
              simp only [SetNextHop]
              rw [if_neg]
              rintro ⟨rfl, rfl⟩
              exact hcons ⟨rfl, List.mem_cons_self _ _, h1, h2⟩
  exact key _ r

theorem csr_lookup {t : IslTopology} (a b : Nat) :
    (ComputeStaticRoutes t).nextHop a b =
      if a ∈ List.range t.numSatellites ∧ b ∈ List.range t.numSatellites ∧ a ≠ b ∧
          (dijkstraRun t a).1.getD b UINT32_MAX ≠ UINT32_MAX
      then some (traceBack (dijkstraRun t a).2 a t.numSatellites b)
      else none := by
  unfold ComputeStaticRoutes
  have key : ∀ (L : List Nat) (r : RoutingTables),
      ((L.foldl (fun racc src => computeForSource t src racc) r)).nextHop a b =
      if a ∈ L ∧ b ∈ List.range t.numSatellites ∧ a ≠ b ∧
          (dijkstraRun t a).1.getD b UINT32_MAX ≠ UINT32_MAX
      then some (traceBack (dijkstraRun t a).2 a t.numSatellites b)
      else r.nextHop a b := by
    intro L
    induction L with
    | nil =>
      intro r
      simp
    | cons sh ss ih =>
      intro r
      simp only [List.foldl_cons]
      rw [ih]
      by_cases hss : a ∈ ss ∧ b ∈ List.range t.numSatellites ∧ a ≠ b ∧
          (dijkstraRun t a).1.getD b UINT32_MAX ≠ UINT32_MAX
      · have hc0 : a ∈ sh :: ss ∧ b ∈ List.range t.numSatellites ∧ a ≠ b ∧
            (dijkstraRun t a).1.getD b UINT32_MAX ≠ UINT32_MAX :=
          ⟨List.mem_cons_of_mem _ hss.1, hss.2⟩
        rw [if_pos hss, if_pos hc0]
      · rw [if_neg hss]
        rw [computeForSource_lookup r a b]
        by_cases hcons : a ∈ sh :: ss ∧ b ∈ List.range t.numSatellites ∧ a ≠ b ∧
            (dijkstraRun t a).1.getD b UINT32_MAX ≠ UINT32_MAX
        · obtain ⟨ha, hb, hab, hfb⟩ := hcons
          have hash : a = sh := by
            rcases List.mem_cons.mp ha with h | h
            · exact h
            · exact absurd ⟨h, hb, hab, hfb⟩ hss
          subst hash
          have hc1 : a ∈ a :: ss ∧ b ∈ List.range t.numSatellites ∧ a ≠ b ∧
              (dijkstraRun t a).1.getD b UINT32_MAX ≠ UINT32_MAX :=
            ⟨List.mem_cons_self _ _, hb, hab, hfb⟩
          rw [if_pos hc1]
          have hc2 : a = a ∧ b ∈ List.range t.numSatellites ∧ a ≠ b ∧
              (dijkstraRun t a).1.getD b UINT32_MAX ≠ UINT32_MAX :=
            ⟨rfl, hb, hab, hfb⟩
          rw [if_pos hc2]
        · rw [if_neg hcons]
          rw [if_neg]
          rintro ⟨rfl, hb, hab, hfb⟩
          exact hcons ⟨List.mem_cons_self _ _, hb, hab, hfb⟩
  rw [key _ emptyRoutes]
  rfl

theorem getNextHop_csr {t : IslTopology} (hwf : TopoWF t)
    (hn : t.numSatellites < UINT32_MAX) {src dst m : Nat}
    (hsrc : src < t.numSatellites) (hdst : dst < t.numSatellites) (hne : src ≠ dst)
    (hsh : ShortestLen t src dst m) :
    memNbr t src (GetNextHop (ComputeStaticRoutes t) src dst) ∧
    GetNextHop (ComputeStaticRoutes t) src dst < t.numSatellites ∧
    ShortestLen t (GetNextHop (ComputeStaticRoutes t) src dst) dst (m - 1) ∧ 1 ≤ m := by
  have hpost := dijkstraRun_post hwf hsrc hn
  have hfin : (dijkstraRun t src).1.getD dst 0 ≠ UINT32_MAX :=
    hpost.distReach dst hdst ⟨m, hsh.1⟩
  have hshd := hpost.distSh dst hdst hfin
  have hmd : (dijkstraRun t src).1.getD dst 0 = m := shortest_unique hshd hsh
  have hposm := shortest_pos hsh hne
  have hdl : dst < (dijkstraRun t src).1.length := by rw [hpost.lenD]; exact hdst
  have hfin2 : (dijkstraRun t src).1.getD dst UINT32_MAX ≠ UINT32_MAX := by
    rw [getD_congr _ _ _ 0 hdl]
    exact hfin
  have hcnd : src ∈ List.range t.numSatellites ∧ dst ∈ List.range t.numSatellites ∧
      src ≠ dst ∧ (dijkstraRun t src).1.getD dst UINT32_MAX ≠ UINT32_MAX :=
    ⟨List.mem_range.mpr hsrc, List.mem_range.mpr hdst, hne, hfin2⟩
  have hgn : GetNextHop (ComputeStaticRoutes t) src dst =
      traceBack (dijkstraRun t src).2 src t.numSatellites dst := by
    unfold GetNextHop
    rw [csr_lookup, if_pos hcnd]
    rfl
  have hdb : (dijkstraRun t src).1.getD dst 0 ≤ t.numSatellites :=
    hpost.distBound dst hdst hfin
  obtain ⟨g1, g2, g3, g4⟩ := traceBack_spec hpost hn t.numSatellites dst hdst
    (fun h => hne h.symm) hfin hdb
  rw [hmd] at g4
  rw [hgn]
  refine ⟨g1, g2, ⟨g4, ?_⟩, hposm⟩
  intro j hj
  have h1 : PathLen t src dst (1 + j) := pathLen_trans (pathLen_one g1) hj
  have h2 := hsh.2 _ h1
  omega

theorem hopLoop_exact {t : IslTopology} (hwf : TopoWF t)
    (hn : t.numSatellites < UINT32_MAX) {dst : Nat} (hdst : dst < t.numSatellites) :
    ∀ (j h x : Nat) (visited : List Nat), x < t.numSatellites →
      ShortestLen t x dst j → h ≤ 100 →
      (∀ y ∈ visited, ∀ jy, ShortestLen t y dst jy → j < jy) →
      hopLoop (ComputeStaticRoutes t) dst x h visited =
        if h + j ≤ 100 then h + j else UINT32_MAX := by
  intro j
  induction j with
  | zero =>
    intro h x visited hx hsh hh _
    have hxd : x = dst := shortest_zero hsh
    subst hxd
    rw [hopLoop_eq, if_pos rfl, if_pos (by omega)]
    omega
  | succ jj ih =>
    intro h x visited hx hsh hh hvis
    have hxd : x ≠ dst := by
      intro hxd
      subst hxd
      have := shortest_unique hsh (shortest_self t x)
      omega
    have hxv : x ∉ visited := by
      intro hmem
      have := hvis x hmem (jj + 1) hsh
      omega
    obtain ⟨g1, g2, g3, g4⟩ := getNextHop_csr hwf hn hx hdst hxd hsh
    have hcne : GetNextHop (ComputeStaticRoutes t) x dst ≠ UINT32_MAX := by
      omega
    rw [hopLoop_eq, if_neg hxd, if_neg hxv, if_neg hcne]
    by_cases hcap : h + 1 > 100
    · rw [if_pos hcap, if_neg (by omega)]
    · rw [if_neg hcap]
      have hrec := ih (h + 1) (GetNextHop (ComputeStaticRoutes t) x dst) (x :: visited)
        g2 (by simpa using g3) (by omega) ?_
      · rw [hrec]
        by_cases hle : h + (jj + 1) ≤ 100
        · rw [if_pos (by omega : h + 1 + jj ≤ 100), if_pos hle]
          omega
        · rw [if_neg (by omega : ¬h + 1 + jj ≤ 100), if_neg hle]
      · intro y hy jy hjy
        rcases List.mem_cons.mp hy with rfl | hy2
        · have := shortest_unique hjy hsh
          omega
        · have := hvis y hy2 jy hjy
          omega

theorem walk_steps {t : IslTopology} (hwf : TopoWF t)
    (hn : t.numSatellites < UINT32_MAX) {dst : Nat} (hdst : dst < t.numSatellites) :
    ∀ (j x : Nat), x < t.numSatellites → ShortestLen t x dst j →
      walkN (ComputeStaticRoutes t) dst j x = dst ∧
      ∀ i < j, memNbr t (walkN (ComputeStaticRoutes t) dst i x)
        (walkN (ComputeStaticRoutes t) dst (i + 1) x) := by
  intro j
  induction j with
  | zero =>
    intro x hx hsh
    have hxd : x = dst := shortest_zero hsh
    subst hxd
    exact ⟨rfl, by omega⟩
  | succ jj ih =>
    intro x hx hsh
    have hxd : x ≠ dst := by
      intro hxd
      subst hxd
      have := shortest_unique hsh (shortest_self t x)
      omega
    obtain ⟨g1, g2, g3, g4⟩ := getNextHop_csr hwf hn hx hdst hxd hsh
    obtain ⟨w1, w2⟩ := ih (GetNextHop (ComputeStaticRoutes t) x dst) g2 (by simpa using g3)
    refine ⟨by rw [walkN_succ]; exact w1, ?_⟩
    intro i hi
    cases i with
    | zero => exact g1
    | succ i' =>
      rw [walkN_succ, walkN_succ]
      exact w2 i' (by omega)

/-! ### C1: routing correctness, the 100-hop cap, and the path counterexample -/

/-- C1 (amended): for every well-formed topology (all neighbor ids valid, node
count below the UINT32_MAX sentinel) and every reachable ordered pair
src ≠ dst at shortest hop distance k, repeated GetNextHop application from src
reaches dst in exactly k steps, each step moving to a listed neighbor of the
previous node, and k is at most any diameter bound of the graph — all of this
with no cap; additionally, provided k does not exceed GetHopCount's
100-iteration safety cap, GetHopCount returns exactly k, the shortest-path hop
distance.  The cap proviso on that last clause alone is forced by
C1_counterexample. -/
theorem C1_routing_reaches_destination {t : IslTopology} (hwf : TopoWF t)
    (hN : t.numSatellites < UINT32_MAX) {src dst k : Nat} (hne : src ≠ dst)
    (hsh : ShortestLen t src dst k) :
    walkN (ComputeStaticRoutes t) dst k src = dst ∧
    (∀ i < k, memNbr t (walkN (ComputeStaticRoutes t) dst i src)
      (walkN (ComputeStaticRoutes t) dst (i + 1) src)) ∧
    (k ≤ 100 → GetHopCount (ComputeStaticRoutes t) src dst = k) ∧
    ∀ D : Nat, (∀ u v j, ShortestLen t u v j → j ≤ D) → k ≤ D := by
  have hk1 : 1 ≤ k := shortest_pos hsh hne
  have hb := pathLen_lt hwf hsh.1 hk1
  obtain ⟨w1, w2⟩ := walk_steps hwf hN hb.2 k src hb.1 hsh
  refine ⟨w1, w2, ?_, fun D hD => hD _ _ _ hsh⟩
  intro hcap
  unfold GetHopCount
  rw [if_neg hne]
  rw [hopLoop_exact hwf hN hb.2 k 0 src [] hb.1 hsh (by omega) (by simp)]
  rw [if_pos (by omega)]
  omega

theorem C1_routing_reaches_destination_witness :
    GetHopCount (ComputeStaticRoutes (GenerateWalkerDeltaTopology 24 4)) 0 1 = 1 ∧
    walkN (ComputeStaticRoutes (GenerateWalkerDeltaTopology 24 4)) 1 1 0 = 1 := by
  have hsh : ShortestLen (GenerateWalkerDeltaTopology 24 4) 0 1 1 := by
    constructor
    · exact pathLen_one (by decide)
    · intro j hj
      cases j with
      | zero => exact absurd (pathLen_zero hj) (by decide)
      | succ j' => omega
  have h := C1_routing_reaches_destination (by decide) (by decide) (by decide) hsh
  exact ⟨h.2.2.1 (by decide), h.1⟩

/-! #### The 102-node path topology exceeds the cap -/

theorem lookupNbrs_append (xs ys : List (Nat × List Nat)) (u : Nat) :
    lookupNbrs (xs ++ ys) u =
      match lookupNbrs xs u with
      | some l => some l
      | none => lookupNbrs ys u := by
  induction xs with
  | nil => simp [lookupNbrs]
  | cons p ps ih =>
    simp only [List.cons_append, lookupNbrs]
    by_cases hp : p.1 = u
    · rw [if_pos hp, if_pos hp]
    · rw [if_neg hp, if_neg hp]
      exact ih

theorem lookupNbrs_eq_none (xs : List (Nat × List Nat)) (u : Nat)
    (h : ∀ p ∈ xs, p.1 ≠ u) : lookupNbrs xs u = none := by
  induction xs with
  | nil => rfl
  | cons p ps ih =>
    simp only [lookupNbrs]
    rw [if_neg (h p (List.mem_cons_self _ _))]
    exact ih fun q hq => h q (List.mem_cons_of_mem _ hq)

theorem lookup_range_map (f : Nat → List Nat) :
    ∀ (n u : Nat), u < n →
      lookupNbrs ((List.range n).map fun i => (i, f i)) u = some (f u) := by
  intro n
  induction n with
  | zero => intro u hu; omega
  | succ m ih =>
    intro u hu
    rw [List.range_succ, List.map_append, lookupNbrs_append]
    by_cases hum : u < m
    · rw [ih u hum]
    · have hu2 : u = m := by omega
      subst hu2
      have hnone : lookupNbrs ((List.range u).map fun i => (i, f i)) u = none := by
        apply lookupNbrs_eq_none
        intro p hp
        rw [List.mem_map] at hp
        obtain ⟨i, hi, rfl⟩ := hp
        have := List.mem_range.mp hi
        omega
      rw [hnone]
      simp [lookupNbrs]

theorem pathTopo_nbrList {n u : Nat} (hu : u < n) :
    nbrList (pathTopo n) u = pathAdj n u := by
  unfold nbrList pathTopo
  simp only
  rw [lookup_range_map (pathAdj n) n u hu]
  rfl

theorem pathTopo_nbrList_oob {n u : Nat} (hu : ¬u < n) :
    nbrList (pathTopo n) u = [] := by
  unfold nbrList pathTopo
  simp only
  rw [lookupNbrs_eq_none]
  · rfl
  · intro p hp
    rw [List.mem_map] at hp
    obtain ⟨i, hi, rfl⟩ := hp
    have := List.mem_range.mp hi
    simp only
    omega

theorem pathTopo_memNbr {n u v : Nat} (h : memNbr (pathTopo n) u v) :
    u < n ∧ v < n ∧ (v + 1 = u ∨ u + 1 = v) := by
  unfold memNbr at h
  by_cases hu : u < n
  · rw [pathTopo_nbrList hu] at h
    unfold pathAdj at h
    rw [List.mem_append] at h
    refine ⟨hu, ?_⟩
    rcases h with h | h
    · by_cases h0 : 0 < u
      · rw [if_pos h0] at h
        simp only [List.mem_singleton] at h
        subst h
        omega
      · rw [if_neg h0] at h
        simp at h
    · by_cases h1 : u + 1 < n
      · rw [if_pos h1] at h
        simp only [List.mem_singleton] at h
        subst h
        omega
      · rw [if_neg h1] at h
        simp at h
  · rw [pathTopo_nbrList_oob hu] at h
    simp at h

theorem pathTopo_chain (n : Nat) : ∀ j, j < n → PathLen (pathTopo n) 0 j j := by
  intro j
  induction j with
  | zero => intro _; exact PathLen.refl 0
  | succ i ih =>
    intro hj
    refine PathLen.step (ih (by omega)) ?_
    unfold memNbr
    rw [pathTopo_nbrList (by omega : i < n)]
    unfold pathAdj
    rw [List.mem_append]
    right
    rw [if_pos hj]
    exact List.mem_singleton.mpr rfl

theorem pathTopo_lower {n : Nat} : ∀ {u v k : Nat}, PathLen (pathTopo n) u v k →
    v ≤ u + k ∧ u ≤ v + k := by
  intro u v k h
  induction h with
  | refl => omega
  | @step w' v' k' hp he ih =>
    have := pathTopo_memNbr he
    omega

theorem pathTopo_shortest : ShortestLen (pathTopo 102) 0 101 101 := by
  constructor
  · exact pathTopo_chain 102 101 (by omega)
  · intro j hj
    have := pathTopo_lower hj
    omega

/-- C1 counterexample: the claim as stated — GetHopCount always equals the
shortest-path hop distance — fails on the 102-node path topology: node 101 is
reachable from node 0 at shortest distance 101, but GetHopCount's
100-iteration safety cap makes it return the UINT32_MAX sentinel instead of
101. -/
theorem C1_counterexample :
    ¬ ∀ (t : IslTopology), TopoWF t → t.numSatellites < UINT32_MAX →
      ∀ (src dst k : Nat), src ≠ dst → ShortestLen t src dst k →
        GetHopCount (ComputeStaticRoutes t) src dst = k := by
  intro hclaim
  have hwf : TopoWF (pathTopo 102) := by decide
  have hn : (pathTopo 102).numSatellites < UINT32_MAX := by decide
  have h1 := hclaim _ hwf hn 0 101 101 (by decide) pathTopo_shortest
  have h2 : GetHopCount (ComputeStaticRoutes (pathTopo 102)) 0 101 = UINT32_MAX := by
    unfold GetHopCount
    rw [if_neg (by decide : ¬(0 : Nat) = 101)]
    rw [hopLoop_exact hwf hn (by decide : (101 : Nat) < (pathTopo 102).numSatellites)
      101 0 0 [] (by decide) pathTopo_shortest (by omega) (by simp)]
    rw [if_neg (by omega)]
  rw [h1] at h2
  exact absurd h2 (by decide)

/-! ### C3: the validated 24-satellite, 4-neighbor configuration -/

/-- C3: GenerateWalkerDeltaTopology(24,4) gives every one of the 24 satellites
exactly the 4 distinct neighbors produced by the Walker-Delta rule (2
intra-plane ring neighbors and 2 same-index inter-plane neighbors, the list
walkerNbrs (sat/8) (sat%8)); numLinks = 48; after ComputeStaticRoutes the next
hop from 0 to 1 is 1 (they are direct neighbors); and ComputeMeshConnectivity
returns exactly 1. -/
theorem C3_validated_24_4_configuration :
    (GenerateWalkerDeltaTopology 24 4).numLinks = 48 ∧
    (∀ sat ∈ List.range 24,
      nbrList (GenerateWalkerDeltaTopology 24 4) sat = walkerNbrs (sat / 8) (sat % 8) ∧
      (nbrList (GenerateWalkerDeltaTopology 24 4) sat).length = 4 ∧
      (nbrList (GenerateWalkerDeltaTopology 24 4) sat).Nodup) ∧
    GetNextHop (ComputeStaticRoutes (GenerateWalkerDeltaTopology 24 4)) 0 1 = 1 ∧
    ComputeMeshConnectivity (GenerateWalkerDeltaTopology 24 4) = 1 := by
  refine ⟨by decide, by decide, ?_, ?_⟩
  · have hsh : ShortestLen (GenerateWalkerDeltaTopology 24 4) 0 1 1 := by
      constructor
      · exact pathLen_one (by decide)
      · intro j hj
        cases j with
        | zero => exact absurd (pathLen_zero hj) (by decide)
        | succ j' => omega
    obtain ⟨g1, g2, g3, g4⟩ := getNextHop_csr (by decide) (by decide)
      (by decide : (0 : Nat) < (GenerateWalkerDeltaTopology 24 4).numSatellites)
      (by decide) (by decide) hsh
    exact (shortest_zero (by simpa using g3)).symm ▸ rfl
  · have h2 : (GenerateWalkerDeltaTopology 24 4).numSatellites = 24 := by decide
    have h1 : (List.range 24).foldl
        (fun acc src => acc + ((BFS (GenerateWalkerDeltaTopology 24 4) src).count true - 1))
        0 = 552 := by decide
    simp only [ComputeMeshConnectivity, h2, h1]
    norm_num

/-! ### C9: the unguarded relaxation indexing stays in bounds -/

theorem get?_getD {α : Type} : ∀ (l : List α) (i : Nat) (d : α), i < l.length →
    l.get? i = some (l.getD i d) := by
  intro l
  induction l with
  | nil => intro i d h; simp at h
  | cons x xs ih =>
    intro i d h
    cases i with
    | zero => simp
    | succ j =>
      simp only [List.get?_cons_succ, List.getD_cons_succ]
      exact ih j d (by simpa using h)

theorem relaxAllC_eq (u : Nat) (visited : List Bool) :
    ∀ (L : List Nat) (s : DState),
      u < visited.length → s.dist.length = visited.length →
      s.prev.length = visited.length → (∀ v ∈ L, v < visited.length) →
      relaxAllC u visited L s = some (relaxAll u visited L s) ∧
      (relaxAll u visited L s).dist.length = s.dist.length ∧
      (relaxAll u visited L s).prev.length = s.prev.length ∧
      (∀ p ∈ (relaxAll u visited L s).pq, p ∈ s.pq ∨ p.2 ∈ L) := by
  intro L
  induction L with
  | nil =>
    intro s _ _ _ _
    exact ⟨rfl, rfl, rfl, fun p hp => Or.inl hp⟩
  | cons v vs ih =>
    intro s hu hd hp hL
    have hv : v < visited.length := hL v (List.mem_cons_self _ _)
    have hvd : v < s.dist.length := by omega
    have hvp : v < s.prev.length := by omega
    have hud : u < s.dist.length := by omega
    have hgv : visited.get? v = some (visited.getD v true) := get?_getD _ _ _ hv
    have hgdu : s.dist.get? u = some (s.dist.getD u 0) := get?_getD _ _ _ hud
    have hgdv : s.dist.get? v = some (s.dist.getD v 0) := get?_getD _ _ _ hvd
    cases hvis : visited.getD v true with
    | true =>
      have hstep : relaxAll u visited (v :: vs) s = relaxAll u visited vs s := by
        simp only [relaxAll]
        rw [hvis, if_pos rfl]
      have hstepC : relaxAllC u visited (v :: vs) s = relaxAllC u visited vs s := by
        simp only [relaxAllC]
        rw [hgv, hvis]
      rw [hstep, hstepC]
      obtain ⟨e1, e2, e3, e4⟩ := ih s hu hd hp (fun x hx => hL x (List.mem_cons_of_mem _ hx))
      exact ⟨e1, e2, e3, fun q hq => (e4 q hq).imp id (List.mem_cons_of_mem _)⟩
    | false =>
      by_cases hlt : s.dist.getD u 0 + 1 < s.dist.getD v 0
      · have hstep : relaxAll u visited (v :: vs) s = relaxAll u visited vs
            { dist := s.dist.set v (s.dist.getD u 0 + 1), prev := s.prev.set v u,
              pq := s.pq ++ [(s.dist.getD u 0 + 1, v)] } := by
          simp only [relaxAll]
          rw [hvis, if_neg Bool.false_ne_true, if_pos hlt]
        have hstepC : relaxAllC u visited (v :: vs) s = relaxAllC u visited vs
            { dist := s.dist.set v (s.dist.getD u 0 + 1), prev := s.prev.set v u,
              pq := s.pq ++ [(s.dist.getD u 0 + 1, v)] } := by
          simp only [relaxAllC]
          rw [hgv, hvis, hgdu, hgdv]
          simp only [if_pos hlt]
          rw [if_pos hvp]
        rw [hstep, hstepC]
        obtain ⟨e1, e2, e3, e4⟩ := ih
          { dist := s.dist.set v (s.dist.getD u 0 + 1), prev := s.prev.set v u,
            pq := s.pq ++ [(s.dist.getD u 0 + 1, v)] }
          hu (by simpa using hd) (by simpa using hp)
          (fun x hx => hL x (List.mem_cons_of_mem _ hx))
        refine ⟨e1, by simpa using e2, by simpa using e3, ?_⟩
        intro q hq
        rcases e4 q hq with hq2 | hq2
        · rcases List.mem_append.mp hq2 with hq3 | hq3
          · exact Or.inl hq3
          · simp only [List.mem_singleton] at hq3
            subst hq3
            exact Or.inr (List.mem_cons_self _ _)
        · exact Or.inr (List.mem_cons_of_mem _ hq2)
      · have hstep : relaxAll u visited (v :: vs) s = relaxAll u visited vs s := by
          simp only [relaxAll]
          rw [hvis, if_neg Bool.false_ne_true, if_neg hlt]
        have hstepC : relaxAllC u visited (v :: vs) s = relaxAllC u visited vs s := by
          simp only [relaxAllC]
          rw [hgv, hvis, hgdu, hgdv]
          simp only [if_neg hlt]
        rw [hstep, hstepC]
        obtain ⟨e1, e2, e3, e4⟩ := ih s hu hd hp (fun x hx => hL x (List.mem_cons_of_mem _ hx))
        exact ⟨e1, e2, e3, fun q hq => (e4 q hq).imp id (List.mem_cons_of_mem _)⟩

theorem dijkstraLoopC_none {t : IslTopology} {visited : List Bool} {s : DState}
    (hpop : popMin s.pq = none) : dijkstraLoopC t visited s = some (s.dist, s.prev) := by
  rw [dijkstraLoopC]
  split
  · rfl
  · rename_i h2
    rw [hpop] at h2
    cases h2

theorem dijkstraLoopC_oob {t : IslTopology} {visited : List Bool} {s : DState}
    {d u : Nat} {pq' : List (Nat × Nat)}
    (hpop : popMin s.pq = some ((d, u), pq')) (hv : visited.get? u = none) :
    dijkstraLoopC t visited s = none := by
  rw [dijkstraLoopC]
  split
  · rename_i h2
    rw [hpop] at h2
    cases h2
  · rename_i d2 u2 pq2 h2
    rw [hpop] at h2
    cases h2
    split
    · rfl
    · rename_i h3
      rw [hv] at h3
      cases h3
    · rename_i h3
      rw [hv] at h3
      cases h3

theorem dijkstraLoopC_skip {t : IslTopology} {visited : List Bool} {s : DState}
    {d u : Nat} {pq' : List (Nat × Nat)}
    (hpop : popMin s.pq = some ((d, u), pq')) (hv : visited.get? u = some true) :
    dijkstraLoopC t visited s = dijkstraLoopC t visited { s with pq := pq' } := by
  rw [dijkstraLoopC]
  split
  · rename_i h2
    rw [hpop] at h2
    cases h2
  · rename_i d2 u2 pq2 h2
    rw [hpop] at h2
    cases h2
    split
    · rename_i h3
      rw [hv] at h3
      cases h3
    · rfl
    · rename_i h3
      rw [hv] at h3
      cases h3

theorem dijkstraLoopC_visit {t : IslTopology} {visited : List Bool} {s : DState}
    {d u : Nat} {pq' : List (Nat × Nat)}
    (hpop : popMin s.pq = some ((d, u), pq')) (hv : visited.get? u = some false) :
    dijkstraLoopC t visited s =
      match relaxAllC u (visited.set u true) (nbrList t u) { s with pq := pq' } with
      | none => none
      | some s2 => dijkstraLoopC t (visited.set u true) s2 := by
  rw [dijkstraLoopC]
  split
  · rename_i h2
    rw [hpop] at h2
    cases h2
  · rename_i d2 u2 pq2 h2
    rw [hpop] at h2
    cases h2
    split
    · rename_i h3
      rw [hv] at h3
      cases h3
    · rename_i h3
      rw [hv] at h3
      cases h3
    · rfl

theorem dijkstraLoopC_eq {t : IslTopology}
    (hids : ∀ p ∈ t.neighbors, ∀ v ∈ p.2, v < t.numSatellites) :
    ∀ (visited : List Bool) (s : DState),
      visited.length = t.numSatellites → s.dist.length = t.numSatellites →
      s.prev.length = t.numSatellites → (∀ p ∈ s.pq, p.2 < t.numSatellites) →
      dijkstraLoopC t visited s = some (dijkstraLoop t visited s) := by
  intro visited0 s0
  refine dijkstraLoopC.induct t
    (fun visited s =>
      visited.length = t.numSatellites → s.dist.length = t.numSatellites →
      s.prev.length = t.numSatellites → (∀ p ∈ s.pq, p.2 < t.numSatellites) →
      dijkstraLoopC t visited s = some (dijkstraLoop t visited s))
    ?_ ?_ ?_ ?_ ?_ visited0 s0
  · intro visited s hpop _ _ _ _
    rw [dijkstraLoopC_none hpop, dijkstraLoop_none hpop]
  · -- the popped node cannot be out of range: it came from the queue
    intro visited s d u pq' hpop hv hl _ _ hpq
    have hu := hpq _ (popMin_mem hpop)
    simp only at hu
    have : visited.get? u ≠ none := by
      rw [get?_getD visited u true (by omega)]
      exact Option.some_ne_none _
    exact absurd hv this
  · intro visited s d u pq' hpop hv ih hl hd hp hpq
    rw [dijkstraLoopC_skip hpop hv]
    have hu := hpq _ (popMin_mem hpop)
    simp only at hu
    have hgd : visited.getD u true = true := by
      have h5 := get?_getD visited u true (by omega)
      rw [hv] at h5
      exact (Option.some.inj h5).symm
    rw [dijkstraLoop_skip hpop hgd]
    exact ih hl hd hp (fun p hp2 => hpq p (popMin_mem_rest hpop hp2))
  · -- relaxAllC cannot fail: every index it touches is in range
    intro visited s d u pq' hpop hv vlet hrel hl hd hp hpq
    have hu := hpq _ (popMin_mem hpop)
    simp only at hu
    have hnb : ∀ v ∈ nbrList t u, v < (visited.set u true).length := by
      intro v hvm
      have := memNbr_val_lt hids hvm
      simp only [List.length_set]
      omega
    obtain ⟨e1, _, _, _⟩ := relaxAllC_eq u (visited.set u true) (nbrList t u)
      { dist := s.dist, prev := s.prev, pq := pq' }
      (by simp only [List.length_set]; omega)
      (by simp only [List.length_set]; omega)
      (by simp only [List.length_set]; omega) hnb
    rw [show relaxAllC u (visited.set u true) (nbrList t u)
      { dist := s.dist, prev := s.prev, pq := pq' } = none from hrel] at e1
    cases e1
  · intro visited s d u pq' hpop hv vlet s2 hrel ih hl hd hp hpq
    rw [dijkstraLoopC_visit hpop hv]
    rw [show relaxAllC u (visited.set u true) (nbrList t u)
      { dist := s.dist, prev := s.prev, pq := pq' } = some s2 from hrel]
    have hu := hpq _ (popMin_mem hpop)
    simp only at hu
    have hgd : visited.getD u true = false := by
      have h5 := get?_getD visited u true (by omega)
      rw [hv] at h5
      exact (Option.some.inj h5).symm
    rw [dijkstraLoop_visit hpop (by rw [hgd]; exact Bool.false_ne_true)]
    have hnb : ∀ v ∈ nbrList t u, v < (visited.set u true).length := by
      intro v hvm
      have := memNbr_val_lt hids hvm
      simp only [List.length_set]
      omega
    obtain ⟨e1, e2, e3, e4⟩ := relaxAllC_eq u (visited.set u true) (nbrList t u)
      { dist := s.dist, prev := s.prev, pq := pq' }
      (by simp only [List.length_set]; omega)
      (by simp only [List.length_set]; omega)
      (by simp only [List.length_set]; omega) hnb
    rw [show relaxAllC u (visited.set u true) (nbrList t u)
      { dist := s.dist, prev := s.prev, pq := pq' } = some s2 from hrel] at e1
    have hs2 : s2 = relaxAll u (visited.set u true) (nbrList t u)
        { dist := s.dist, prev := s.prev, pq := pq' } := by
      cases e1
      rfl
    subst hs2
    refine ih (show (visited.set u true).length = t.numSatellites by
        simp only [List.length_set]; omega)
      (by rw [e2]; exact hd) (by rw [e3]; exact hp) ?_
    intro p hp2
    rcases e4 p hp2 with hp3 | hp3
    · exact hpq p (popMin_mem_rest hpop hp3)
    · exact memNbr_val_lt hids hp3

theorem dijkstraRunC_eq {t : IslTopology}
    (hids : ∀ p ∈ t.neighbors, ∀ v ∈ p.2, v < t.numSatellites) {src : Nat}
    (hsrc : src < t.numSatellites) :
    dijkstraRunC t src = some (dijkstraRun t src) := by
  unfold dijkstraRunC dijkstraRun
  apply dijkstraLoopC_eq hids
  · simp
  · simp
  · simp
  · intro p hp
    simp only [List.mem_singleton] at hp
    subst hp
    exact hsrc

theorem gen_wf : ∀ nS k : Nat, TopoWF (GenerateWalkerDeltaTopology nS k) := by
  intro nS k
  by_cases h : nS = 24 ∧ k = 4
  · obtain ⟨rfl, rfl⟩ := h
    exact topo24_wf
  · rw [gen_unsupported_eq nS k h]
    intro p hp
    simp at hp

/-- C9: the unguarded dist/prev/visited indexing in ComputeStaticRoutes's
relaxation step stays in bounds whenever every neighbor id appearing in any
neighbor list is below numSatellites (the map keys need no bound: only popped,
in-range nodes are ever looked up): under exactly that precondition the fully
bounds-checked replay of the Dijkstra run (none on any out-of-range access)
returns the unchecked run.  Every generator output satisfies the
precondition.  ComputeStaticRoutes itself, unlike BFS, performs no neighbor
bound check of its own: on the malformed topology tBad (neighbor id 5 listed
in a 2-node topology) the checked run fails with none while BFS simply
ignores the out-of-range neighbor. -/
theorem C9_unguarded_relaxation_safe :
    (∀ (t : IslTopology) (src : Nat),
      (∀ p ∈ t.neighbors, ∀ v ∈ p.2, v < t.numSatellites) → src < t.numSatellites →
      dijkstraRunC t src = some (dijkstraRun t src)) ∧
    (∀ nS k : Nat, ∀ p ∈ (GenerateWalkerDeltaTopology nS k).neighbors, ∀ v ∈ p.2,
      v < (GenerateWalkerDeltaTopology nS k).numSatellites) ∧
    dijkstraRunC tBad 0 = none ∧
    BFS tBad 0 = [true, false] := by
  refine ⟨fun t src hids hsrc => dijkstraRunC_eq hids hsrc,
    fun nS k p hp => (gen_wf nS k p hp).2, ?_, by decide⟩
  unfold dijkstraRunC
  rw [dijkstraLoopC_visit
    (show popMin [(0, 0)] = some ((0, 0), ([] : List (Nat × Nat))) from rfl)
    (show (List.replicate tBad.numSatellites false).get? 0 = some false from rfl)]
  rfl

theorem C9_unguarded_relaxation_safe_witness :
    dijkstraRunC (GenerateWalkerDeltaTopology 24 4) 0 =
      some (dijkstraRun (GenerateWalkerDeltaTopology 24 4) 0) :=
  C9_unguarded_relaxation_safe.1 (GenerateWalkerDeltaTopology 24 4) 0 (by decide) (by decide)

/-! ### C7: route installation over the full mesh -/

theorem foldl_pairs (routes : RoutingTables) (ifaces : List IfaceRec) :
    ∀ (P : List (Nat × Nat)) (st : Nat × List (Nat × Nat)),
      (P.foldl (fun st2 p =>
          if routeInstallable routes ifaces p.1 p.2 then (st2.1 + 1, st2.2)
          else (st2.1, st2.2 ++ [p])) st) =
      (st.1 + P.countP (fun p => routeInstallable routes ifaces p.1 p.2),
       st.2 ++ P.filter fun p => !(routeInstallable routes ifaces p.1 p.2)) := by
  intro P
  induction P with
  | nil => intro st; simp
  | cons p ps ih =>
    intro st
    simp only [List.foldl_cons, List.countP_cons, List.filter_cons]
    by_cases hin : routeInstallable routes ifaces p.1 p.2 = true
    · rw [if_pos hin, ih]
      simp [hin]
      omega
    · have hin2 : routeInstallable routes ifaces p.1 p.2 = false := bool_not_true hin
      rw [if_neg hin, ih]
      simp [hin2]

theorem innerFold_pairs (routes : RoutingTables) (ifaces : List IfaceRec) (src : Nat) :
    ∀ (D : List Nat) (st : Nat × List (Nat × Nat)),
      (D.foldl (fun st2 dst =>
          if src = dst then st2
          else if routeInstallable routes ifaces src dst then (st2.1 + 1, st2.2)
          else (st2.1, st2.2 ++ [(src, dst)])) st) =
      (((D.filter fun d => !(src == d)).map fun d => (src, d)).foldl (fun st2 p =>
          if routeInstallable routes ifaces p.1 p.2 then (st2.1 + 1, st2.2)
          else (st2.1, st2.2 ++ [p])) st) := by
  intro D
  induction D with
  | nil => intro st; simp
  | cons d ds ih =>
    intro st
    simp only [List.foldl_cons, List.filter_cons]
    by_cases hsd : src = d
    · have hbe : (!(src == d)) = false := by simp [hsd]
      rw [if_pos hsd, hbe]
      simp only [Bool.false_eq_true, if_false]
      exact ih st
    · have hbe : (!(src == d)) = true := by simp [hsd]
      rw [if_neg hsd, hbe]
      simp only [if_true, List.map_cons, List.foldl_cons]
      exact ih _

theorem install_characterization (satCount : Nat) (routes : RoutingTables)
    (ifaces : List IfaceRec) :
    InstallStaticRoutes satCount routes ifaces =
      ((orderedPairs satCount).countP fun p => routeInstallable routes ifaces p.1 p.2,
       (orderedPairs satCount).filter fun p => !(routeInstallable routes ifaces p.1 p.2)) := by
  unfold InstallStaticRoutes orderedPairs
  have outer : ∀ (S : List Nat) (st : Nat × List (Nat × Nat)),
      (S.foldl (fun st3 src =>
        (List.range satCount).foldl (fun st2 dst =>
          if src = dst then st2
          else if routeInstallable routes ifaces src dst then (st2.1 + 1, st2.2)
          else (st2.1, st2.2 ++ [(src, dst)])) st3) st) =
      ((S.flatMap fun s =>
          ((List.range satCount).filter fun d => !(s == d)).map fun d => (s, d)).foldl
        (fun st2 p =>
          if routeInstallable routes ifaces p.1 p.2 then (st2.1 + 1, st2.2)
          else (st2.1, st2.2 ++ [p])) st) := by
    intro S
    induction S with
    | nil => intro st; simp
    | cons a as ih =>
      intro st
      simp only [List.foldl_cons, List.flatMap_cons, List.foldl_append]
      rw [innerFold_pairs, ih]
  rw [outer, foldl_pairs]
  simp

theorem reachSet_path {t : IslTopology} {src : Nat} :
    ∀ (k v : Nat), v ∈ reachSet t src k → ∃ j, PathLen t src v j := by
  intro k
  induction k with
  | zero =>
    intro v hv
    simp only [reachSet, List.mem_singleton] at hv
    subst hv
    exact ⟨0, PathLen.refl _⟩
  | succ m ih =>
    intro v hv
    simp only [reachSet, expandR, List.mem_append] at hv
    rcases hv with hv | hv
    · exact ih v hv
    · rw [List.mem_filter] at hv
      obtain ⟨hv1, _⟩ := hv
      rw [List.mem_flatMap] at hv1
      obtain ⟨w, hw, hvw⟩ := hv1
      obtain ⟨j, hj⟩ := ih w hw
      exact ⟨j + 1, PathLen.step hj hvw⟩

theorem mem_orderedPairs {n : Nat} {p : Nat × Nat} (h : p ∈ orderedPairs n) :
    p.1 < n ∧ p.2 < n ∧ p.1 ≠ p.2 := by
  unfold orderedPairs at h
  rw [List.mem_flatMap] at h
  obtain ⟨s, hs, hp⟩ := h
  rw [List.mem_map] at hp
  obtain ⟨d, hd, rfl⟩ := hp
  rw [List.mem_filter] at hd
  obtain ⟨hd1, hd2⟩ := hd
  refine ⟨List.mem_range.mp hs, List.mem_range.mp hd1, ?_⟩
  simpa using hd2

theorem topo24_all_installable : ∀ p ∈ orderedPairs 24,
    routeInstallable (ComputeStaticRoutes (GenerateWalkerDeltaTopology 24 4))
      (buildIfaces (islLinks (GenerateWalkerDeltaTopology 24 4))) p.1 p.2 = true := by
  have hreach : ∀ s ∈ List.range 24, ∀ d ∈ List.range 24,
      d ∈ reachSet (GenerateWalkerDeltaTopology 24 4) s 8 := by decide
  have hbind : ∀ a ∈ List.range 24, ∀ b ∈ List.range 24,
      memNbr (GenerateWalkerDeltaTopology 24 4) a b →
      ((linkToLocalInterface (buildIfaces (islLinks (GenerateWalkerDeltaTopology 24 4)))
          (a, b)).isSome ∧
        (linkToLocalInterface (buildIfaces (islLinks (GenerateWalkerDeltaTopology 24 4)))
          (b, a)).isSome) := by decide
  have haddr : ∀ d ∈ List.range 24,
      (satelliteAddress (buildIfaces (islLinks (GenerateWalkerDeltaTopology 24 4)))
        d).isSome = true := by decide
  intro p hp
  obtain ⟨h1, h2, h3⟩ := mem_orderedPairs hp
  obtain ⟨j, hj⟩ := reachSet_path 8 p.2
    (hreach p.1 (List.mem_range.mpr h1) p.2 (List.mem_range.mpr h2))
  obtain ⟨m, hm⟩ := reach_shortest ⟨j, hj⟩
  obtain ⟨g1, g2, g3, g4⟩ := getNextHop_csr (by decide) (by decide)
    (show p.1 < (GenerateWalkerDeltaTopology 24 4).numSatellites by
      rw [topo24_sats]; exact h1)
    (show p.2 < (GenerateWalkerDeltaTopology 24 4).numSatellites by
      rw [topo24_sats]; exact h2) h3 hm
  have hc24 : GetNextHop (ComputeStaticRoutes (GenerateWalkerDeltaTopology 24 4)) p.1 p.2
      < 24 := by
    rw [topo24_sats] at g2
    exact g2
  have hb := hbind p.1 (List.mem_range.mpr h1) _ (List.mem_range.mpr hc24) g1
  unfold routeInstallable
  rw [Bool.and_eq_true, Bool.and_eq_true, Bool.and_eq_true]
  refine ⟨⟨⟨?_, haddr p.2 (List.mem_range.mpr h2)⟩, hb.1⟩, hb.2⟩
  rw [bne_iff_ne]
  intro he
  rw [he] at hc24
  exact absurd hc24 (by decide)

/-- C7: over the full 24-node mesh with the complete link fabric and address
build, InstallStaticRoutes installs exactly 24 × 23 = 552 host routes with an
empty skip list (the topology is fully connected and every binding resolves);
and on any input whatsoever the result is exactly one installed route per
ordered pair whose four lookups all succeed and one skip record per ordered
pair with any missing piece — a missing binding affects only its own pair,
installation proceeds for all remaining pairs. -/
theorem C7_install_static_routes :
    InstallStaticRoutes 24 (ComputeStaticRoutes (GenerateWalkerDeltaTopology 24 4))
      (buildIfaces (islLinks (GenerateWalkerDeltaTopology 24 4))) = (552, []) ∧
    (∀ (satCount : Nat) (routes : RoutingTables) (ifaces : List IfaceRec),
      InstallStaticRoutes satCount routes ifaces =
        ((orderedPairs satCount).countP fun p => routeInstallable routes ifaces p.1 p.2,
         (orderedPairs satCount).filter fun p =>
           !(routeInstallable routes ifaces p.1 p.2))) ∧
    (∀ (satCount : Nat) (routes : RoutingTables) (ifaces : List IfaceRec) (p : Nat × Nat),
      p ∈ (InstallStaticRoutes satCount routes ifaces).2 ↔
        p ∈ orderedPairs satCount ∧ routeInstallable routes ifaces p.1 p.2 = false) := by
  refine ⟨?_, install_characterization, ?_⟩
  · rw [install_characterization]
    have hall := topo24_all_installable
    have h1 : ((orderedPairs 24).countP fun p =>
        routeInstallable (ComputeStaticRoutes (GenerateWalkerDeltaTopology 24 4))
          (buildIfaces (islLinks (GenerateWalkerDeltaTopology 24 4))) p.1 p.2) =
        (orderedPairs 24).length := by
      rw [List.countP_eq_length]
      exact hall
    have hlen : (orderedPairs 24).length = 552 := by decide
    have h2 : ((orderedPairs 24).filter fun p =>
        !(routeInstallable (ComputeStaticRoutes (GenerateWalkerDeltaTopology 24 4))
          (buildIfaces (islLinks (GenerateWalkerDeltaTopology 24 4))) p.1 p.2)) = [] := by
      rw [List.filter_eq_nil]
      intro p hp
      rw [hall p hp]
      decide
    rw [h1, hlen, h2]
  · intro satCount routes ifaces p
    rw [install_characterization]
    simp only [List.mem_filter, Bool.not_eq_true']

theorem C2_generated_topology_symmetric_witness :
    memNbr (GenerateWalkerDeltaTopology 24 4) 0 1 ↔
      memNbr (GenerateWalkerDeltaTopology 24 4) 1 0 :=
  C2_generated_topology_symmetric 24 4 0 1

theorem C3_validated_24_4_configuration_witness :
    nbrList (GenerateWalkerDeltaTopology 24 4) 0 = walkerNbrs 0 0 :=
  (C3_validated_24_4_configuration.2.1 0 (by decide)).1

theorem C8_no_self_routes_witness :
    GetNextHop (ComputeStaticRoutes (GenerateWalkerDeltaTopology 24 4)) 3 3 = UINT32_MAX :=
  (C8_no_self_routes (GenerateWalkerDeltaTopology 24 4) 3).2

theorem C10_self_hop_count_zero_witness : GetHopCount emptyRoutes 7 7 = 0 :=
  C10_self_hop_count_zero.1 emptyRoutes 7

theorem C7_install_static_routes_witness :
    InstallStaticRoutes 0 emptyRoutes [] =
      ((orderedPairs 0).countP fun p => routeInstallable emptyRoutes [] p.1 p.2,
       (orderedPairs 0).filter fun p => !(routeInstallable emptyRoutes [] p.1 p.2)) :=
  C7_install_static_routes.2.1 0 emptyRoutes []
